import Mathlib

/-!
Verification of the SQL schema extraction engine of the data-dictionary
backend (`backend/services/ai/analysis_service.py`).

The Python source is shallowly embedded: strings are modelled as `List Char`,
Python dicts as ordered association lists `List (String × JValue)`, fallible
paths as `Option`/`Except`, and the regular expressions of the source are
embedded as explicit character-list matchers that follow the semantics of the
concrete patterns appearing in the source (leftmost match, greedy/lazy
quantifier behaviour as noted at each definition).

Components embedded:
* the tokenizing column splitter of `AnalysisService.parse_sql` (the
  paren/quote-aware comma split);
* the `CREATE TABLE` statement matcher and the column / foreign-key
  classifier of `parse_sql`;
* the free-form response normalizer `AnalysisService._parse_ai_response`
  (markdown fence stripping, strict JSON path, regex fallback, terminal
  fallback), together with an embedding of `json.loads` / `json.dumps`
  sufficient for the inputs the theorems exercise;
* the orchestrator `AnalysisService.analyze_code` (SQL keyword detection,
  deterministic early return, OpenAI/Gemini fallback order, aggregated
  failure) and `AnalysisService.analyze_code_with_llm`, with the external
  provider calls and the persistence collaborator abstracted as outcome
  parameters.
-/

namespace DD

/-! ### Character classes (Python `str.strip`, `\s`, `\w` on ASCII input) -/

/-- Python whitespace for `str.strip()` and the regex class `\s` (ASCII range). -/
def isPyWs (c : Char) : Bool :=
  c = ' ' || c = '\t' || c = '\n' || c = '\r' || c = Char.ofNat 11 || c = Char.ofNat 12

/-- Regex class `\w` on ASCII input: letters, digits, underscore. -/
def isWordChar (c : Char) : Bool :=
  ('a' ≤ c && c ≤ 'z') || ('A' ≤ c && c ≤ 'Z') || ('0' ≤ c && c ≤ '9') || c = '_'

/-- The single-quote character (spelled by code point). -/
def squote : Char := Char.ofNat 39

/-- The double-quote character (spelled by code point). -/
def dquote : Char := Char.ofNat 34

/-- The backtick character (spelled by code point). -/
def btick : Char := Char.ofNat 96

/-- Case-insensitive character comparison, as under `re.IGNORECASE`. -/
def ciEq (a b : Char) : Bool := a.toLower = b.toLower

/-- Python `str.strip(chars)`: drop the `p`-characters from both ends. -/
def trimBy (p : Char → Bool) (s : List Char) : List Char :=
  ((s.dropWhile p).reverse.dropWhile p).reverse

/-- Python `str.strip()`: drop leading and trailing whitespace. -/
def pyStrip (s : List Char) : List Char := trimBy isPyWs s

/-- Membership in the quote set of `str.strip('`"')`. -/
def isTickQuote (c : Char) : Bool := c = btick || c = dquote

/-- Python `str.strip('`"')` as applied to matched identifiers: drop leading and
trailing backtick / double-quote characters. -/
def stripQuotes (s : List Char) : List Char := trimBy isTickQuote s

/-! ### The tokenizing column splitter

Embedding of the loop at `analysis_service.py:44-71`: a single left-to-right
scan over the table body keeping a parenthesis counter and an in-string flag
(with the opening quote character), splitting on commas only at depth 0
outside strings.  The counter is a Python `int`, hence `Int` here (it can go
negative on unbalanced input). -/

/-- Scanner state of the column splitter: open-paren count, the quote character
of the string literal currently open (if any), the characters of the current
fragment, and the finished fragments. -/
structure SplitState where
  parens : Int
  strCh : Option Char
  cur : List Char
  acc : List (List Char)
deriving Repr, DecidableEq

/-- One character step of the splitter loop (`analysis_service.py:50-68`). -/
def splitStep (st : SplitState) (c : Char) : SplitState :=
  match st.strCh with
  | some q =>
    if c = q then { st with strCh := none, cur := st.cur ++ [c] }
    else { st with cur := st.cur ++ [c] }
  | none =>
    if c = squote ∨ c = dquote then { st with strCh := some c, cur := st.cur ++ [c] }
    else if c = '(' then { st with parens := st.parens + 1, cur := st.cur ++ [c] }
    else if c = ')' then { st with parens := st.parens - 1, cur := st.cur ++ [c] }
    else if c = ',' ∧ st.parens = 0 then { st with acc := st.acc ++ [pyStrip st.cur], cur := [] }
    else { st with cur := st.cur ++ [c] }

/-- Flushes the pending fragment after the scan, mirroring
`if current_def: col_defs.append(''.join(current_def).strip())`. -/
def splitFlush (st : SplitState) : List (List Char) :=
  if st.cur = [] then st.acc else st.acc ++ [pyStrip st.cur]

/-- Splits a table body into column/constraint definition fragments
(`analysis_service.py:43-71`). -/
def splitColumnDefs (s : List Char) : List (List Char) :=
  splitFlush (s.foldl splitStep ⟨0, none, [], []⟩)

/-- Scanner state without the accumulated text: paren depth and open quote. -/
abbrev ScanSt := Int × Option Char

/-- The state transition of the splitter, forgetting the accumulated text. -/
def scanStep (st : ScanSt) (c : Char) : ScanSt :=
  match st.2 with
  | some q => if c = q then (st.1, none) else st
  | none =>
    if c = squote ∨ c = dquote then (st.1, some c)
    else if c = '(' then (st.1 + 1, none)
    else if c = ')' then (st.1 - 1, none)
    else st

/-- Holds when scanning `s` from state `st` never reaches a split point (a
comma at depth 0 outside a string literal). -/
def noSplit : ScanSt → List Char → Bool
  | _, [] => true
  | st, c :: cs =>
    if st.2 = none ∧ c = ',' ∧ st.1 = 0 then false else noSplit (scanStep st c) cs

/-- A fragment is balanced when scanning it from the initial state returns to
the initial state without passing a split point: the splitter will treat it as
one indivisible definition. -/
def balancedFragment (f : List Char) : Bool :=
  noSplit (0, none) f && decide (f.foldl scanStep (0, none) = ((0 : Int), (none : Option Char)))

/-- Joins definition fragments with the top-level comma separator. -/
def joinComma : List (List Char) → List Char
  | [] => []
  | [f] => f
  | f :: fs => f ++ ',' :: joinComma fs

theorem scanStep_eq_proj (st : SplitState) (c : Char) :
    ((splitStep st c).parens, (splitStep st c).strCh) = scanStep (st.parens, st.strCh) c := by
  rcases st with ⟨p, q, cur, acc⟩
  cases q with
  | none =>
    simp only [splitStep, scanStep]
    split_ifs <;> rfl
  | some q => by_cases h : c = q <;> simp [splitStep, scanStep, h]

theorem splitStep_no_split (st : SplitState) (c : Char)
    (h : ¬(st.strCh = none ∧ c = ',' ∧ st.parens = 0)) :
    (splitStep st c).cur = st.cur ++ [c] ∧ (splitStep st c).acc = st.acc := by
  rcases st with ⟨p, q, cur, acc⟩
  cases q with
  | none =>
    have h4 : ¬(c = ',' ∧ p = 0) := fun ⟨hc, hp⟩ => h ⟨rfl, hc, hp⟩
    simp only [splitStep]
    split_ifs <;> exact ⟨rfl, rfl⟩
  | some q => by_cases h' : c = q <;> simp [splitStep, h']

/-- Processing a split-free stretch of input only extends the pending
fragment; the finished fragments are untouched. -/
theorem foldl_noSplit (f : List Char) : ∀ (st : SplitState),
    noSplit (st.parens, st.strCh) f = true →
    (f.foldl splitStep st).cur = st.cur ++ f ∧
    (f.foldl splitStep st).acc = st.acc ∧
    ((f.foldl splitStep st).parens, (f.foldl splitStep st).strCh)
      = f.foldl scanStep (st.parens, st.strCh) := by
  induction f with
  | nil => intro st _; simp
  | cons c cs ih =>
    intro st h
    rw [noSplit] at h
    by_cases hsp : (st.parens, st.strCh).2 = none ∧ c = ',' ∧ (st.parens, st.strCh).1 = 0
    · rw [if_pos hsp] at h; exact absurd h (by simp)
    · rw [if_neg hsp] at h
      have hns : ¬(st.strCh = none ∧ c = ',' ∧ st.parens = 0) := hsp
      obtain ⟨hcur, hacc⟩ := splitStep_no_split st c hns
      have hproj := scanStep_eq_proj st c
      have hrec := ih (splitStep st c) (by rw [hproj]; exact h)
      refine ⟨?_, ?_, ?_⟩
      · simp only [List.foldl_cons]; rw [hrec.1, hcur, List.append_assoc]; rfl
      · simp only [List.foldl_cons]; rw [hrec.2.1, hacc]
      · simp only [List.foldl_cons]; rw [hrec.2.2, hproj]

/-- Processing a comma-join of balanced nonempty fragments flushes to exactly
the stripped fragments, appended after whatever was already accumulated. -/
theorem splitFlush_joinComma : ∀ (f : List Char) (fs : List (List Char)) (acc : List (List Char)),
    balancedFragment f = true → f ≠ [] →
    (∀ g ∈ fs, balancedFragment g = true ∧ g ≠ []) →
    splitFlush ((joinComma (f :: fs)).foldl splitStep ⟨0, none, [], acc⟩)
      = acc ++ (f :: fs).map pyStrip := by
  intro f fs
  induction fs generalizing f with
  | nil =>
    intro acc hbal hne _
    simp only [balancedFragment, Bool.and_eq_true, decide_eq_true_eq] at hbal
    have hscan := foldl_noSplit f ⟨0, none, [], acc⟩ hbal.1
    simp only [joinComma]
    rcases hfold : f.foldl splitStep ⟨0, none, [], acc⟩ with ⟨p', q', cur', acc'⟩
    rw [hfold] at hscan
    simp only at hscan
    obtain ⟨h1, h2, _⟩ := hscan
    simp only [List.nil_append] at h1
    rw [splitFlush]
    simp only [h1, h2, if_neg hne, List.map_cons, List.map_nil]
  | cons g gs ih =>
    intro acc hbal hne htail
    simp only [balancedFragment, Bool.and_eq_true, decide_eq_true_eq] at hbal
    have hscan := foldl_noSplit f ⟨0, none, [], acc⟩ hbal.1
    have hjoin : joinComma (f :: g :: gs) = f ++ ',' :: joinComma (g :: gs) := rfl
    rw [hjoin, List.foldl_append]
    rcases hfold : f.foldl splitStep ⟨0, none, [], acc⟩ with ⟨p', q', cur', acc'⟩
    rw [hfold] at hscan
    simp only at hscan
    obtain ⟨h1, h2, h3⟩ := hscan
    rw [hbal.2] at h3
    have hp : p' = 0 := congrArg Prod.fst h3
    have hq : q' = none := congrArg Prod.snd h3
    subst hp hq
    simp only [List.nil_append] at h1
    simp only [List.foldl_cons]
    have e1 : ¬(',' = squote ∨ ',' = dquote) := by decide
    have e2 : ¬(',' = '(') := by decide
    have e3 : ¬(',' = ')') := by decide
    have hcomma : splitStep ⟨0, none, cur', acc'⟩ ',' = ⟨0, none, [], acc' ++ [pyStrip cur']⟩ := by
      simp [splitStep, e1, e2, e3]
    rw [hcomma, h1, h2]
    have hrec := ih g (acc ++ [pyStrip f]) (htail g (by simp)).1 (htail g (by simp)).2
      (fun x hx => htail x (by simp [hx]))
    rw [hrec]
    simp

/-- The splitter on a comma-join of balanced nonempty fragments returns
exactly those fragments, stripped: it never splits at a comma that sits
inside parentheses or inside a string literal. -/
theorem splitColumnDefs_joinComma (fs : List (List Char))
    (h : ∀ f ∈ fs, balancedFragment f = true ∧ f ≠ []) :
    splitColumnDefs (joinComma fs) = fs.map pyStrip := by
  cases fs with
  | nil => rfl
  | cons f fs =>
    have := splitFlush_joinComma f fs [] (h f (by simp)).1 (h f (by simp)).2
      (fun x hx => h x (by simp [hx]))
    simpa [splitColumnDefs] using this

/-! ### Regex building blocks for `parse_sql`

The patterns of `parse_sql` are embedded as explicit matchers.  Greedy
quantifiers (`\s+`, `\w+`) are realised by maximal munch; at every use site in
the embedded patterns the token following the quantifier starts with a
character outside the quantifier's class, so maximal munch agrees with the
backtracking semantics of `re`. -/

/-- Matches a literal case-insensitively (`re.IGNORECASE`), returning the rest. -/
def matchCI : List Char → List Char → Option (List Char)
  | [], s => some s
  | _ :: _, [] => none
  | l :: ls, c :: cs => if ciEq c l then matchCI ls cs else none

/-- Regex `\s+`: at least one whitespace character, consumed greedily. -/
def ws1 : List Char → Option (List Char)
  | [] => none
  | c :: cs => if isPyWs c then some (cs.dropWhile isPyWs) else none

/-- Regex `\s*`. -/
def skipWs (s : List Char) : List Char := s.dropWhile isPyWs

/-- Regex `([`"]?\w+[`"]?)`: optional quote, a word run, optional quote.
Returns the captured group (quotes included) and the rest. -/
def wordQuote (pre t : List Char) : Option (List Char × List Char) :=
  let (w, r) := t.span isWordChar
  if w = [] then none
  else match r with
    | q :: r' => if isTickQuote q then some (pre ++ w ++ [q], r') else some (pre ++ w, r)
    | [] => some (pre ++ w, [])

def matchNameTok (s : List Char) : Option (List Char × List Char) :=
  match s with
  | [] => none
  | c :: cs => if isTickQuote c then wordQuote [c] cs else wordQuote [] s

/-- Regex `([^)]*)\)`: everything before the first `)` and the rest after it;
fails when no `)` occurs at all. -/
def splitAtRParen : List Char → Option (List Char × List Char)
  | [] => none
  | c :: cs =>
    if c = ')' then some ([], cs)
    else (splitAtRParen cs).map (fun br => (c :: br.1, br.2))

/-- Regex `([^)]+)\)`: as `splitAtRParen` but the group must be nonempty. -/
def upToRParen1 (t : List Char) : Option (List Char × List Char) :=
  match splitAtRParen t with
  | some (g, r) => if g = [] then none else some (g, r)
  | none => none

/-- Searches a pattern at every start position, leftmost first (`re.search`). -/
def searchSuffix {α : Type} (f : List Char → Option α) : List Char → Option α
  | [] => f []
  | c :: cs => (f (c :: cs)) <|> searchSuffix f cs

/-- Searches a pattern that also inspects the character before the match start
(for `\b` handling), leftmost first. -/
def searchSuffixB {α : Type} (f : Option Char → List Char → Option α) :
    Option Char → List Char → Option α
  | prev, [] => f prev []
  | prev, c :: cs => (f prev (c :: cs)) <|> searchSuffixB f (some c) cs

/-- Word-boundary condition `\b` before a word character: the previous
character, if any, is not a word character. -/
def bdryBefore : Option Char → Bool
  | none => true
  | some p => !isWordChar p

/-- Word-boundary condition `\b` after a word character: the next character,
if any, is not a word character. -/
def bdryAfter : List Char → Bool
  | [] => true
  | c :: _ => !isWordChar c

/-! ### Literals used by the embedded patterns -/

def litCREATE : List Char := ("CREATE").toList
def litTABLE : List Char := ("TABLE").toList
def litIF : List Char := ("IF").toList
def litNOT : List Char := ("NOT").toList
def litEXISTS : List Char := ("EXISTS").toList
def litFOREIGN : List Char := ("FOREIGN").toList
def litKEY : List Char := ("KEY").toList
def litREFERENCES : List Char := ("REFERENCES").toList
def litCOMMENT : List Char := ("COMMENT").toList
def litPRIMARY : List Char := ("PRIMARY").toList
def litUNIQUE : List Char := ("UNIQUE").toList
def litNULL : List Char := ("NULL").toList
def litDEFAULT : List Char := ("DEFAULT").toList
def litCHECK : List Char := ("CHECK").toList
def litAUTOINC : List Char := ("AUTO_INCREMENT").toList
def litALTER : List Char := ("ALTER").toList
def litSELECT : List Char := ("SELECT").toList
def litFROM : List Char := ("FROM").toList

/-! ### The `CREATE TABLE` statement matcher

Embedding of `create_table_pattern` (`analysis_service.py:31`):
`CREATE\s+TABLE\s+(?:IF\s+NOT\s+EXISTS\s+)?([`"]?\w+[`"]?)?\s*\(([\s\S]*?)\)(?:\s*;)?`
applied with `re.finditer` under `re.IGNORECASE`.  The body group
`([\s\S]*?)\)` is lazy: it always stops at the first `)` after the opening
parenthesis, so the captured body never contains a `)`. -/

/-- Matches `\s*\(` then the lazy body group up to the first `)` and the
optional `\s*;` tail; returns (body, rest after the whole match). -/
def matchBodyTail (t : List Char) : Option (List Char × List Char) := do
  let afterParen ← match skipWs t with
    | c :: cs => if c = '(' then some cs else none
    | [] => none
  let (body, rest) ← splitAtRParen afterParen
  let rest' := match skipWs rest with
    | c :: cs => if c = ';' then cs else rest
    | [] => rest
  pure (body, rest')

/-- Matches the optional name group followed by the body; greedy, so the name
branch is preferred and the nameless branch is the backtracking fallback. -/
def matchNameAndBody (t : List Char) : Option (Option (List Char) × List Char × List Char) :=
  (do
    let (nm, t1) ← matchNameTok t
    let (body, rest) ← matchBodyTail t1
    pure (some nm, body, rest))
  <|> (do
    let (body, rest) ← matchBodyTail t
    pure (none, body, rest))

/-- Matches `IF\s+NOT\s+EXISTS\s+`. -/
def matchINE (s : List Char) : Option (List Char) := do
  let t ← matchCI litIF s
  let t ← ws1 t
  let t ← matchCI litNOT t
  let t ← ws1 t
  let t ← matchCI litEXISTS t
  ws1 t

/-- Attempts the whole `create_table_pattern` at one start position, returning
the raw name group, the body group and the rest after the match. -/
def matchCreateAt (s : List Char) : Option (Option (List Char) × List Char × List Char) := do
  let t ← matchCI litCREATE s
  let t ← ws1 t
  let t ← matchCI litTABLE t
  let t ← ws1 t
  match matchINE t with
  | some t' => (matchNameAndBody t') <|> (matchNameAndBody t)
  | none => matchNameAndBody t

/-- Embedding of `re.finditer(create_table_pattern, ...)`: leftmost matches,
scanning resumes after each match.  The fuel starts at the input length, which
bounds the number of scan steps (every step consumes at least one character). -/
def findCreatesFuel : Nat → List Char → List (Option (List Char) × List Char)
  | 0, _ => []
  | _, [] => []
  | fuel + 1, c :: cs =>
    match matchCreateAt (c :: cs) with
    | some (nm, body, rest) => (nm, body) :: findCreatesFuel fuel rest
    | none => findCreatesFuel fuel cs

def findCreates (s : List Char) : List (Option (List Char) × List Char) :=
  findCreatesFuel s.length s

/-! ### The column definition classifier

Embedding of the foreign-key branch (`analysis_service.py:80-98`) and the
column branch (`analysis_service.py:100-145`). -/

/-- Matches `\s*FOREIGN\s+KEY\b` at the start of a fragment (`re.match` at
`analysis_service.py:80`). -/
def fkHead (s : List Char) : Bool :=
  match (do
    let t ← matchCI litFOREIGN (skipWs s)
    let t ← ws1 t
    matchCI litKEY t) with
  | some t => bdryAfter t
  | none => false

/-- Attempts the foreign-key pattern
`FOREIGN\s+KEY\s*\(([^)]+)\)\s*REFERENCES\s+([`"]?\w+[`"]?)\s*(?:\(([^)]+)\))?`
at one start position; returns the three capture groups. -/
def fkMatchAt (s : List Char) : Option (List Char × List Char × Option (List Char)) := do
  let t ← matchCI litFOREIGN s
  let t ← ws1 t
  let t ← matchCI litKEY t
  let t ← match skipWs t with
    | c :: cs => if c = '(' then some cs else none
    | [] => none
  let (g1, t) ← upToRParen1 t
  let t ← matchCI litREFERENCES (skipWs t)
  let t ← ws1 t
  let (g2, t) ← matchNameTok t
  let g3 : Option (List Char) := do
    let u ← match skipWs t with
      | c :: cs => if c = '(' then some cs else none
      | [] => none
    let (g, _) ← upToRParen1 u
    pure g
  pure (g1, g2, g3)

/-- Embedding of `re.search` for the foreign-key pattern
(`analysis_service.py:81`). -/
def fkSearch (s : List Char) : Option (List Char × List Char × Option (List Char)) :=
  searchSuffix fkMatchAt s

/-- Membership in the strip set of `col.strip('`" ')`. -/
def isFkStripChar (c : Char) : Bool := c = btick || c = dquote || c = ' '

/-- Python `str.split(',')`: split at every comma, keeping empty pieces. -/
def splitOnComma : List Char → List (List Char)
  | [] => [[]]
  | c :: cs =>
    if c = ',' then [] :: splitOnComma cs
    else match splitOnComma cs with
      | g :: gs => (c :: g) :: gs
      | [] => [[c]]

/-- The column list of a foreign-key group: split on commas, each piece
stripped of backticks, double quotes and spaces (`analysis_service.py:83`). -/
def fkCols (g : List Char) : List (List Char) :=
  (splitOnComma g).map (trimBy isFkStripChar)

/-- Matches the column-name pattern `([`"]?\w+[`"]?)\s+` at the start of a
fragment (`analysis_service.py:101`); returns the name group and the rest
after the greedy whitespace run. -/
def colNameMatch (cd : List Char) : Option (List Char × List Char) := do
  let (tok, r) ← matchNameTok cd
  let r ← ws1 r
  pure (tok, r)

/-- Matches the data-type pattern `(\w+(?:\s*\([^)]*\))?)` at the start of the
remaining definition (`analysis_service.py:109`); returns the full group
(whitespace and parenthesised part included) and the rest. -/
def typeMatch (s : List Char) : Option (List Char × List Char) :=
  let (w, r) := s.span isWordChar
  if w = [] then none
  else
    let (wsr, u) := r.span isPyWs
    match u with
    | c :: v =>
      if c = '(' then
        match splitAtRParen v with
        | some (inner, rest2) => some (w ++ wsr ++ '(' :: (inner ++ [')']), rest2)
        | none => some (w, r)
      else some (w, r)
    | [] => some (w, r)

/-- Matches the lazily matched, backtracking-complete content of the
`COMMENT\s+['"]((?:[^'"\\]|\\.)*)['"]` group: characters other than bare
quotes, with backslash-pairs allowed to hide a quote, ended by the first bare
quote (the greedy star cannot cross it). -/
def commentContent : List Char → Option (List Char × List Char)
  | [] => none
  | c :: cs =>
    if c = squote ∨ c = dquote then some ([], cs)
    else if c = '\\' then
      match cs with
      | [] => none
      | d :: ds =>
        if d = '\n' then none
        else (commentContent ds).map (fun gr => (c :: d :: gr.1, gr.2))
    else (commentContent cs).map (fun gr => (c :: gr.1, gr.2))

/-- Attempts the comment pattern at one start position. -/
def commentAt (s : List Char) : Option (List Char) := do
  let t ← matchCI litCOMMENT s
  let t ← ws1 t
  let t ← match t with
    | c :: cs => if c = squote ∨ c = dquote then some cs else none
    | [] => none
  let (g, _) ← commentContent t
  pure g

/-- Embedding of the `COMMENT` search (`analysis_service.py:117`). -/
def commentSearch (s : List Char) : Option (List Char) :=
  searchSuffix commentAt s

/-- Attempts `\bPRIMARY\s+KEY\b` at one position (given the previous char). -/
def primaryKeyAt (prev : Option Char) (s : List Char) : Option Unit := do
  if bdryBefore prev then
    let t ← matchCI litPRIMARY s
    let t ← ws1 t
    let t ← matchCI litKEY t
    if bdryAfter t then pure () else none
  else none

/-- Attempts `\bUNIQUE\b` at one position. -/
def uniqueAt (prev : Option Char) (s : List Char) : Option Unit := do
  if bdryBefore prev then
    let t ← matchCI litUNIQUE s
    if bdryAfter t then pure () else none
  else none

/-- Attempts `\bNOT\s+NULL\b` at one position. -/
def notNullAt (prev : Option Char) (s : List Char) : Option Unit := do
  if bdryBefore prev then
    let t ← matchCI litNOT s
    let t ← ws1 t
    let t ← matchCI litNULL t
    if bdryAfter t then pure () else none
  else none

/-- Attempts `\bDEFAULT\s+(?:[^,\s]+|\([^)]+\))` at one position, returning
the captured default value (the part after the whitespace run, which is what
`group(0).split(None, 1)[1]` extracts). -/
def defaultAt (prev : Option Char) (s : List Char) : Option (List Char) := do
  if bdryBefore prev then
    let t ← matchCI litDEFAULT s
    let t ← ws1 t
    let (run, _) := t.span (fun c => !isPyWs c && !(c = ','))
    if run = [] then
      match t with
      | c :: cs =>
        if c = '(' then
          match upToRParen1 cs with
          | some (inner, _) => pure ('(' :: (inner ++ [')']))
          | none => none
        else none
      | [] => none
    else pure run
  else none

/-- Attempts `\bCHECK\s*\([^)]+\)` at one position. -/
def checkAt (prev : Option Char) (s : List Char) : Option Unit := do
  if bdryBefore prev then
    let t ← matchCI litCHECK s
    let t ← match skipWs t with
      | c :: cs => if c = '(' then some cs else none
      | [] => none
    let _ ← upToRParen1 t
    pure ()
  else none

/-- Attempts `\bAUTO_INCREMENT\b` at one position. -/
def autoIncAt (prev : Option Char) (s : List Char) : Option Unit := do
  if bdryBefore prev then
    let t ← matchCI litAUTOINC s
    if bdryAfter t then pure () else none
  else none

/-- Scans the remaining definition for the six constraint patterns in the
order of `constraint_patterns` (`analysis_service.py:122-138`), collecting the
constraint tags of the ones found. -/
def constraintScan (rem : List Char) : List (List Char) :=
  (if (searchSuffixB primaryKeyAt none rem).isSome then [("PRIMARY KEY").toList] else [])
  ++ (if (searchSuffixB uniqueAt none rem).isSome then [("UNIQUE").toList] else [])
  ++ (if (searchSuffixB notNullAt none rem).isSome then [("NOT NULL").toList] else [])
  ++ (match searchSuffixB defaultAt none rem with
      | some v => [("DEFAULT ").toList ++ v]
      | none => [])
  ++ (if (searchSuffixB checkAt none rem).isSome then [("CHECK").toList] else [])
  ++ (if (searchSuffixB autoIncAt none rem).isSome then [("AUTO_INCREMENT").toList] else [])

/-! ### Descriptors and the fragment classifier -/

/-- Embedding of the column dictionaries built at `analysis_service.py:140-145`. -/
structure ColumnDesc where
  name : List Char
  type : List Char
  description : List Char
  constraints : List (List Char)
deriving Repr, DecidableEq

/-- Embedding of the relationship dictionaries built at
`analysis_service.py:91-97`.  `from_table` is `none` when the statement had no
recognisable table name (Python `None`). -/
structure RelationshipDesc where
  rtype : List Char
  from_table : Option (List Char)
  from_fields : List (List Char)
  to_table : List Char
  to_fields : List (List Char)
deriving Repr, DecidableEq

/-- Embedding of the table dictionaries built at `analysis_service.py:147-151`. -/
structure TableDesc where
  name : Option (List Char)
  fields : List ColumnDesc
  relationships : List RelationshipDesc
deriving Repr, DecidableEq

/-- Classification result of one fragment. -/
inductive FragResult where
  | col (c : ColumnDesc)
  | rel (r : RelationshipDesc)
  | skip
deriving Repr, DecidableEq

/-- Classifies one definition fragment (`analysis_service.py:74-145`): empty
fragments and fragments matching neither grammar are skipped; a fragment
starting with `FOREIGN KEY` yields a relationship only when the full
foreign-key pattern matches; otherwise the column name/type extraction runs. -/
def classifyFrag (tname : Option (List Char)) (cd : List Char) : FragResult :=
  if pyStrip cd = [] then .skip
  else if fkHead cd then
    match fkSearch cd with
    | some (g1, g2, g3) =>
      .rel ⟨("foreign_key").toList, tname, fkCols g1, stripQuotes g2,
        match g3 with
        | some g => fkCols g
        | none => [("id").toList]⟩
    | none => .skip
  else
    match colNameMatch cd with
    | none => .skip
    | some (tok, rest) =>
      let columnName := stripQuotes tok
      let remaining := pyStrip rest
      match typeMatch remaining with
      | none => .skip
      | some (tyTok, rest2) =>
        let dataType := pyStrip tyTok
        let remaining2 := pyStrip rest2
        let comment := (commentSearch remaining2).getD []
        .col ⟨columnName, dataType, comment, constraintScan remaining2⟩

/-- The fragment-accumulation step of the table loop
(`analysis_service.py:74-145`): a classified column is appended to the column
list, a relationship to the relationship list, a skipped fragment changes
nothing. -/
def classStep (tname : Option (List Char))
    (acc : List ColumnDesc × List RelationshipDesc) (cd : List Char) :
    List ColumnDesc × List RelationshipDesc :=
  match classifyFrag tname cd with
  | .col c => (acc.1 ++ [c], acc.2)
  | .rel r => (acc.1, acc.2 ++ [r])
  | .skip => acc

/-- Builds one table descriptor from a matched statement
(`analysis_service.py:35-151`): the name group is stripped of quote
delimiters, the body is split, and each fragment is classified in order. -/
def buildTable (nmOpt : Option (List Char)) (body : List Char) : TableDesc :=
  let tname := nmOpt.map stripQuotes
  let cr := (splitColumnDefs body).foldl (classStep tname) ([], [])
  ⟨tname, cr.1, cr.2⟩

/-- Embedding of `AnalysisService.parse_sql` (`analysis_service.py:26-156`),
returning the list bound to the `"tables"` key (the full return value also
carries the fixed tag `"type": "sql_analysis"`, added back when the result
dictionary is assembled by the orchestrator embedding). -/
def parseSqlTables (sql : List Char) : List TableDesc :=
  (findCreates sql).map (fun nb => buildTable nb.1 nb.2)

/-! ### JSON values

Embedding of the JSON data handled by `json.dumps` / `json.loads` in
`_parse_ai_response` and its callers.  Strings are character lists; objects
are insertion-ordered association lists, as Python dicts are.  Floats do not
occur in any value the analysis service constructs, so numbers are `Int`. -/

inductive JValue where
  | jnull
  | jbool (b : Bool)
  | jint (n : Int)
  | jstr (s : List Char)
  | jarr (xs : List JValue)
  | jobj (kvs : List (List Char × JValue))
deriving Repr

/-- The opening brace character (spelled by code point). -/
def obrace : Char := Char.ofNat 123

/-- The closing brace character (spelled by code point). -/
def cbrace : Char := Char.ofNat 125

/-- Regex-free digit test for JSON numbers. -/
def isDigitCh (c : Char) : Bool := '0' ≤ c && c ≤ '9'

/-- JSON whitespace skipped by `json.loads` between tokens. -/
def isJsonWs (c : Char) : Bool := c = ' ' || c = '\t' || c = '\n' || c = '\r'

def skipJWs (s : List Char) : List Char := s.dropWhile isJsonWs

/-! #### Serialisation (`json.dumps`, default separators `", "` and `": "`)

`escapeChar` covers the escapes `json.dumps` emits for the characters the
embedded values contain (quote, backslash, newline, tab, carriage return);
control characters below 0x20 other than these and non-ASCII characters,
which `json.dumps` would emit as `\uXXXX`, are emitted verbatim — for such
characters the serialised form differs from CPython's while still being read
back to the same value by the parser below. -/

def escapeChar (c : Char) : List Char :=
  if c = dquote then ['\\', dquote]
  else if c = '\\' then ['\\', '\\']
  else if c = '\n' then ['\\', 'n']
  else if c = '\t' then ['\\', 't']
  else if c = '\r' then ['\\', 'r']
  else [c]

def escapeL (s : List Char) : List Char :=
  s.foldr (fun c r => escapeChar c ++ r) []

/-- A serialised JSON string: quote, escaped body, quote. -/
def dumpStr (s : List Char) : List Char :=
  dquote :: (escapeL s ++ [dquote])

/-- Decimal digit characters of a natural number, most significant first. -/
def natChars (n : Nat) (acc : List Char) : List Char :=
  if n < 10 then Char.ofNat ('0'.toNat + n % 10) :: acc
  else natChars (n / 10) (Char.ofNat ('0'.toNat + n % 10) :: acc)
termination_by n
decreasing_by omega

/-- Decimal characters of an integer, as `json.dumps` prints `int`. -/
def intChars (i : Int) : List Char :=
  (if i < 0 then ['-'] else []) ++ natChars i.natAbs []

mutual
def dumpVal : JValue → List Char
  | .jnull => ['n', 'u', 'l', 'l']
  | .jbool true => ['t', 'r', 'u', 'e']
  | .jbool false => ['f', 'a', 'l', 's', 'e']
  | .jint n => intChars n
  | .jstr s => dumpStr s
  | .jarr xs => '[' :: (dumpElems xs ++ [']'])
  | .jobj kvs => obrace :: (dumpMembers kvs ++ [cbrace])
def dumpElems : List JValue → List Char
  | [] => []
  | x :: xs => dumpVal x ++ dumpElemSep xs
def dumpElemSep : List JValue → List Char
  | [] => []
  | x :: xs => ',' :: ' ' :: (dumpVal x ++ dumpElemSep xs)
def dumpMembers : List (List Char × JValue) → List Char
  | [] => []
  | (k, v) :: ms => dumpStr k ++ ':' :: ' ' :: (dumpVal v ++ dumpMemberSep ms)
def dumpMemberSep : List (List Char × JValue) → List Char
  | [] => []
  | (k, v) :: ms => ',' :: ' ' :: (dumpStr k ++ ':' :: ' ' :: (dumpVal v ++ dumpMemberSep ms))
end

/-! #### Parsing (`json.loads`)

The parser recurses on a fuel counter for totality; `jparse` supplies fuel
exceeding the input length, which the round-trip lemmas show is enough for
serialised values.  It accepts everything `json.dumps` (as embedded above)
emits, plus arbitrary inter-token whitespace; like the splitter, it is a
deterministic recursive-descent reading of the JSON grammar. -/

/-- Unescaping table of `json.loads` for single-character escapes. -/
def unescapeCh (d : Char) : Option Char :=
  if d = dquote then some dquote
  else if d = '\\' then some '\\'
  else if d = '/' then some '/'
  else if d = 'n' then some '\n'
  else if d = 't' then some '\t'
  else if d = 'r' then some '\r'
  else if d = 'b' then some (Char.ofNat 8)
  else if d = 'f' then some (Char.ofNat 12)
  else none

/-- Parses a string body after the opening quote. -/
def parseStrBody : List Char → Option (List Char × List Char)
  | [] => none
  | c :: cs =>
    if c = dquote then some ([], cs)
    else if c = '\\' then
      match cs with
      | [] => none
      | d :: ds =>
        match unescapeCh d with
        | some e => (parseStrBody ds).map (fun gr => (e :: gr.1, gr.2))
        | none => none
    else (parseStrBody cs).map (fun gr => (c :: gr.1, gr.2))

def takeDigits : List Char → List Char × List Char
  | [] => ([], [])
  | c :: cs =>
    if isDigitCh c then
      let dr := takeDigits cs
      (c :: dr.1, dr.2)
    else ([], c :: cs)

def digitsToNat (ds : List Char) : Nat :=
  ds.foldl (fun acc c => acc * 10 + (c.toNat - '0'.toNat)) 0

/-- Parses an integer token: optional minus sign, then a digit run. -/
def parseIntTok (s : List Char) : Option (Int × List Char) :=
  match s with
  | [] => none
  | c :: r =>
    if c = '-' then
      if (takeDigits r).1 = [] then none
      else some (-(digitsToNat (takeDigits r).1 : Int), (takeDigits r).2)
    else
      if (takeDigits (c :: r)).1 = [] then none
      else some ((digitsToNat (takeDigits (c :: r)).1 : Int), (takeDigits (c :: r)).2)

/-- Python dict assignment `m[k] = v`: replace in place, else append. -/
def dictSet (m : List (List Char × JValue)) (k : List Char) (v : JValue) :
    List (List Char × JValue) :=
  match m with
  | [] => [(k, v)]
  | (k', v') :: rest => if k' = k then (k', v) :: rest else (k', v') :: dictSet rest k v

/-- Builds a Python dict from parsed members in order (later duplicates
overwrite earlier values in place, as `json.loads` does). -/
def pyDict (pairs : List (List Char × JValue)) : List (List Char × JValue) :=
  pairs.foldl (fun m kv => dictSet m kv.1 kv.2) []

mutual
def parseVal : Nat → List Char → Option (JValue × List Char)
  | 0, _ => none
  | fuel + 1, cs =>
    match skipJWs cs with
    | 'n' :: 'u' :: 'l' :: 'l' :: r => some (.jnull, r)
    | 't' :: 'r' :: 'u' :: 'e' :: r => some (.jbool true, r)
    | 'f' :: 'a' :: 'l' :: 's' :: 'e' :: r => some (.jbool false, r)
    | '[' :: r =>
      (match skipJWs r with
       | [] => none
       | c' :: r' =>
         if c' = ']' then some (.jarr [], r')
         else
           match parseElems fuel (c' :: r') with
           | some (es, r') => some (.jarr es, r')
           | none => none)
    | c :: rest =>
      if c = dquote then
        match parseStrBody rest with
        | some (s, r') => some (.jstr s, r')
        | none => none
      else if c = obrace then
        (match skipJWs rest with
         | d :: r' =>
           if d = cbrace then some (.jobj [], r')
           else
             (match parseMembers fuel (d :: r') with
              | some (ms, r'') => some (.jobj (pyDict ms), r'')
              | none => none)
         | [] => none)
      else if c = '-' || isDigitCh c then
        match parseIntTok (c :: rest) with
        | some (n, r') => some (.jint n, r')
        | none => none
      else none
    | [] => none
def parseElems : Nat → List Char → Option (List JValue × List Char)
  | 0, _ => none
  | fuel + 1, cs =>
    match parseVal fuel cs with
    | none => none
    | some (v, r) =>
      match skipJWs r with
      | ',' :: r' =>
        (match parseElems fuel r' with
         | some (vs, r'') => some (v :: vs, r'')
         | none => none)
      | ']' :: r' => some ([v], r')
      | _ => none
def parseMembers : Nat → List Char → Option (List (List Char × JValue) × List Char)
  | 0, _ => none
  | fuel + 1, cs =>
    match skipJWs cs with
    | c :: r =>
      if c = dquote then
        match parseStrBody r with
        | none => none
        | some (key, r1) =>
          match skipJWs r1 with
          | ':' :: r2 =>
            (match parseVal fuel r2 with
             | none => none
             | some (v, r3) =>
               match skipJWs r3 with
               | ',' :: r4 =>
                 (match parseMembers fuel r4 with
                  | some (ms, r5) => some ((key, v) :: ms, r5)
                  | none => none)
               | d :: r4 =>
                 if d = cbrace then some ([(key, v)], r4) else none
               | [] => none)
          | _ => none
      else none
    | [] => none
end

/-- Embedding of `json.loads`: parse one document, allow trailing whitespace
only.  Returns `none` where `json.loads` raises `JSONDecodeError`. -/
def jparse (s : List Char) : Option JValue :=
  match parseVal (s.length + 1) s with
  | some (v, r) => if skipJWs r = [] then some v else none
  | none => none

/-! ### Round-trip lemmas: numbers -/

/-- Stops a digit run: empty rest or a non-digit head.  Every JSON delimiter
(comma, bracket, brace, whitespace, end of input) qualifies. -/
def intDelim : List Char → Bool
  | [] => true
  | c :: _ => !isDigitCh c

theorem digitCharSpec (k : Nat) (h : k < 10) :
    (Char.ofNat ('0'.toNat + k)).toNat - '0'.toNat = k
      ∧ isDigitCh (Char.ofNat ('0'.toNat + k)) = true := by
  interval_cases k <;> exact ⟨by decide, by decide⟩

theorem natChars_acc (n : Nat) : ∀ acc : List Char,
    natChars n acc = natChars n [] ++ acc := by
  induction n using Nat.strongRecOn with
  | _ n ih =>
    intro acc
    rw [natChars.eq_def n acc, natChars.eq_def n []]
    by_cases hlt : n < 10
    · simp [hlt]
    · have hstep := ih (n / 10) (by omega)
      simp only [if_neg hlt]
      rw [hstep, hstep [_]]
      simp

theorem natChars_step (n : Nat) :
    natChars n [] = (if n < 10 then [] else natChars (n / 10) [])
      ++ [Char.ofNat ('0'.toNat + n % 10)] := by
  rw [natChars.eq_def]
  by_cases h : n < 10
  · simp [h]
  · simp only [if_neg h]
    exact natChars_acc (n / 10) [_]

theorem natChars_ne_nil (n : Nat) : natChars n [] ≠ [] := by
  rw [natChars_step]; simp

theorem natChars_all_digits (n : Nat) : ∀ c ∈ natChars n [], isDigitCh c = true := by
  induction n using Nat.strongRecOn with
  | _ n ih =>
    intro c hc
    rw [natChars_step, List.mem_append] at hc
    rcases hc with hl | hr
    · have hn : ¬ n < 10 := by
        intro h10
        rw [if_pos h10] at hl
        exact List.not_mem_nil c hl
      rw [if_neg hn] at hl
      exact ih (n / 10) (by omega) c hl
    · rw [List.mem_singleton.mp hr]
      exact (digitCharSpec (n % 10) (Nat.mod_lt n (by omega))).2

theorem digitsToNat_natChars (n : Nat) : digitsToNat (natChars n []) = n := by
  induction n using Nat.strongRecOn with
  | _ n ih =>
    rw [natChars_step]
    unfold digitsToNat
    rw [List.foldl_append]
    by_cases h : n < 10
    · simp only [if_pos h, List.foldl_nil, List.foldl_cons]
      rw [(digitCharSpec _ (Nat.mod_lt _ (by omega))).1]
      omega
    · simp only [if_neg h, List.foldl_cons, List.foldl_nil]
      have := ih (n / 10) (by omega)
      unfold digitsToNat at this
      rw [this, (digitCharSpec _ (Nat.mod_lt _ (by omega))).1]
      omega

theorem takeDigits_stop {cs : List Char} (h : intDelim cs = true) :
    takeDigits cs = ([], cs) := by
  match cs with
  | [] => rfl
  | c :: t =>
    simp only [intDelim, Bool.not_eq_true'] at h
    simp [takeDigits, h]

theorem takeDigits_run (ds : List Char) (hds : ∀ c ∈ ds, isDigitCh c = true)
    (rest : List Char) (hrest : intDelim rest = true) :
    takeDigits (ds ++ rest) = (ds, rest) := by
  induction ds with
  | nil => simpa using takeDigits_stop hrest
  | cons c t ih =>
    have hd : isDigitCh c = true := hds c (List.mem_cons_self c t)
    have htl := ih fun x hx => hds x (List.mem_cons_of_mem c hx)
    simp [takeDigits, hd, htl]

theorem natChars_head (n : Nat) :
    ∃ c t, natChars n [] = c :: t ∧ isDigitCh c = true := by
  match h : natChars n [] with
  | [] => exact absurd h (natChars_ne_nil n)
  | c :: t => exact ⟨c, t, rfl, natChars_all_digits n c (h ▸ List.mem_cons_self ..)⟩

theorem parseIntTok_intChars (i : Int) (rest : List Char) (hr : intDelim rest = true) :
    parseIntTok (intChars i ++ rest) = some (i, rest) := by
  obtain ⟨c0, t0, h0, hc0⟩ := natChars_head i.natAbs
  have hdig := natChars_all_digits i.natAbs
  have htd : takeDigits (natChars i.natAbs [] ++ rest) = (natChars i.natAbs [], rest) :=
    takeDigits_run _ hdig _ hr
  have hval := digitsToNat_natChars i.natAbs
  by_cases hneg : i < 0
  · have harg : intChars i ++ rest = '-' :: (natChars i.natAbs [] ++ rest) := by
      simp [intChars, hneg]
    rw [harg]
    have hne : ¬(natChars i.natAbs [] = []) := natChars_ne_nil _
    have hv : -(digitsToNat (natChars i.natAbs []) : Int) = i := by
      rw [hval]; omega
    simp only [parseIntTok, if_pos rfl, htd, hne, if_false, hv, ite_false]
    simp
  · have hm : c0 ≠ '-' := by
      intro he; subst he; exact absurd hc0 (by decide)
    have harg : intChars i ++ rest = c0 :: (t0 ++ rest) := by
      simp [intChars, hneg, h0]
    rw [harg]
    have htd' : takeDigits (c0 :: (t0 ++ rest)) = (c0 :: t0, rest) := by
      rw [← List.cons_append, ← h0]; exact htd
    have hv : (digitsToNat (c0 :: t0) : Int) = i := by
      rw [← h0, hval]; omega
    simp only [parseIntTok, if_neg hm, htd', hv]
    simp

/-! ### Round-trip lemmas: strings and dicts -/

theorem parseStrBody_escape (c : Char) (rest : List Char) :
    parseStrBody (escapeChar c ++ rest) = (parseStrBody rest).map (fun gr => (c :: gr.1, gr.2)) := by
  by_cases h1 : c = dquote
  · subst h1
    simp +decide [escapeChar, parseStrBody, unescapeCh]
  · by_cases h2 : c = '\\'
    · subst h2
      simp +decide [escapeChar, parseStrBody, unescapeCh]
    · by_cases h3 : c = '\n'
      · subst h3
        simp +decide [escapeChar, parseStrBody, unescapeCh]
      · by_cases h4 : c = '\t'
        · subst h4
          simp +decide [escapeChar, parseStrBody, unescapeCh]
        · by_cases h5 : c = '\r'
          · subst h5
            simp +decide [escapeChar, parseStrBody, unescapeCh]
          · simp only [escapeChar, if_neg h1, if_neg h2, if_neg h3, if_neg h4, if_neg h5]
            rw [List.singleton_append, parseStrBody.eq_def]
            simp [h1, h2]

theorem parseStrBody_escapeL (s : List Char) : ∀ (rest : List Char),
    parseStrBody (escapeL s ++ (dquote :: rest)) = some (s, rest) := by
  induction s with
  | nil =>
    intro rest
    rw [show escapeL [] ++ (dquote :: rest) = dquote :: rest by simp [escapeL]]
    rw [parseStrBody.eq_def]
    simp
  | cons c cs ih =>
    intro rest
    have hstep : escapeL (c :: cs) = escapeChar c ++ escapeL cs := by
      simp [escapeL]
    rw [hstep, List.append_assoc, parseStrBody_escape, ih]
    rfl

/-- Parsing a serialised string recovers it: the quote, body, quote shape. -/
theorem parseStrBody_dumpStr (s : List Char) (rest : List Char) :
    parseStrBody (escapeL s ++ [dquote] ++ rest) = some (s, rest) := by
  rw [List.append_assoc]
  exact parseStrBody_escapeL s rest

theorem dictSet_append (m : List (List Char × JValue)) (k : List Char) (v : JValue)
    (h : k ∉ m.map Prod.fst) : dictSet m k v = m ++ [(k, v)] := by
  induction m with
  | nil => rfl
  | cons kv rest ih =>
    simp only [List.map_cons, List.mem_cons] at h
    push_neg at h
    rcases kv with ⟨k', v'⟩
    simp only [dictSet]
    rw [if_neg (fun he => h.1 he.symm), ih h.2]
    rfl

theorem pyDict_nodup (pairs : List (List Char × JValue))
    (h : (pairs.map Prod.fst).Nodup) : pyDict pairs = pairs := by
  suffices haux : ∀ (ps acc : List (List Char × JValue)),
      ((acc ++ ps).map Prod.fst).Nodup →
      ps.foldl (fun m kv => dictSet m kv.1 kv.2) acc = acc ++ ps by
    simpa [pyDict] using haux pairs [] (by simpa using h)
  intro ps
  induction ps with
  | nil => intro acc _; simp
  | cons kv rest ih =>
    intro acc hacc
    rcases kv with ⟨k, v⟩
    have hacc' : (acc.map Prod.fst ++ k :: rest.map Prod.fst).Nodup := by
      simpa using hacc
    have hk : k ∉ acc.map Prod.fst := by
      intro hmem
      exact (List.disjoint_of_nodup_append hacc') hmem
        (List.mem_cons_self k (rest.map Prod.fst))
    simp only [List.foldl_cons]
    rw [dictSet_append acc k v hk]
    rw [ih (acc ++ [(k, v)]) (by simpa [List.append_assoc] using hacc)]
    simp

/-! ### Round-trip: whole values -/

/-! Key sets inside every object of a value are duplicate-free; for such
values `json.loads` rebuilds objects unchanged. -/
mutual
def goodKeysVal : JValue → Bool
  | .jnull => true
  | .jbool _ => true
  | .jint _ => true
  | .jstr _ => true
  | .jarr xs => goodKeysArr xs
  | .jobj kvs => decide ((kvs.map Prod.fst).Nodup) && goodKeysObj kvs
def goodKeysArr : List JValue → Bool
  | [] => true
  | x :: xs => goodKeysVal x && goodKeysArr xs
def goodKeysObj : List (List Char × JValue) → Bool
  | [] => true
  | kv :: ms => goodKeysVal kv.2 && goodKeysObj ms
end

theorem skipJWs_not_ws {c : Char} (t : List Char) (h : isJsonWs c = false) :
    skipJWs (c :: t) = c :: t := by
  simp [skipJWs, h]

theorem digit_not_json_special {c : Char} (h : isDigitCh c = true) :
    isJsonWs c = false ∧ c ≠ ']' ∧ c ≠ cbrace ∧ c ≠ ',' := by
  have hle : '0'.toNat ≤ c.toNat ∧ c.toNat ≤ '9'.toNat := by
    simp only [isDigitCh, Bool.and_eq_true, decide_eq_true_eq] at h
    exact ⟨h.1, h.2⟩
  refine ⟨?_, ?_, ?_, ?_⟩
  · simp only [isJsonWs, Bool.or_eq_false_iff, decide_eq_false_iff_not]
    refine ⟨⟨⟨?_, ?_⟩, ?_⟩, ?_⟩ <;>
      (intro he; rw [he] at hle; revert hle; decide)
  all_goals intro he; rw [he] at hle; revert hle; decide

/-- Every serialised value begins with a character that is not JSON
whitespace and closes neither an array nor an object. -/
theorem dumpVal_head (v : JValue) :
    ∃ c t, dumpVal v = c :: t ∧ isJsonWs c = false ∧ c ≠ ']' ∧ c ≠ cbrace := by
  cases v with
  | jnull => exact ⟨'n', _, rfl, by decide, by decide, by decide⟩
  | jbool b =>
    rcases b with _ | _
    · exact ⟨'f', _, rfl, by decide, by decide, by decide⟩
    · exact ⟨'t', _, rfl, by decide, by decide, by decide⟩
  | jstr s => exact ⟨dquote, _, rfl, by decide, by decide, by decide⟩
  | jarr xs => exact ⟨'[', _, rfl, by decide, by decide, by decide⟩
  | jobj kvs => exact ⟨obrace, _, rfl, by decide, by decide, by decide⟩
  | jint i =>
    by_cases hm : i < 0
    · refine ⟨'-', natChars i.natAbs [], ?_, by decide, by decide, by decide⟩
      simp [dumpVal, intChars, hm]
    · obtain ⟨c0, t0, h0, hc0⟩ := natChars_head i.natAbs
      obtain ⟨hws, hbr, hbc, _⟩ := digit_not_json_special hc0
      refine ⟨c0, t0, ?_, hws, hbr, hbc⟩
      simp [dumpVal, intChars, hm, h0]

theorem skipJWs_dump (v : JValue) (x : List Char) :
    skipJWs (dumpVal v ++ x) = dumpVal v ++ x := by
  obtain ⟨c, t, hd, hws, _, _⟩ := dumpVal_head v
  rw [hd, List.cons_append]
  exact skipJWs_not_ws _ hws

theorem parseVal_ws (f : Nat) (x : List Char) : parseVal f (' ' :: x) = parseVal f x := by
  cases f with
  | zero => rfl
  | succ f => rfl

theorem parseElems_ws (f : Nat) (x : List Char) : parseElems f (' ' :: x) = parseElems f x := by
  cases f with
  | zero => rfl
  | succ f =>
    show (match parseVal f (' ' :: x) with
      | none => none
      | some (v, r) =>
        match skipJWs r with
        | ',' :: r' =>
          (match parseElems f r' with
           | some (vs, r'') => some (v :: vs, r'')
           | none => none)
        | ']' :: r' => some ([v], r')
        | _ => none) = _
    rw [parseVal_ws]
    rfl

theorem parseMembers_ws (f : Nat) (x : List Char) :
    parseMembers f (' ' :: x) = parseMembers f x := by
  cases f with
  | zero => rfl
  | succ f => rfl

theorem parseVal_int_red (f : Nat) (c0 : Char) (t : List Char)
    (hws : isJsonWs c0 = false)
    (hn : c0 ≠ 'n') (ht : c0 ≠ 't') (hf : c0 ≠ 'f') (hbk : c0 ≠ '[')
    (hq : c0 ≠ dquote) (hob : c0 ≠ obrace)
    (hg : (c0 = '-' || isDigitCh c0) = true) :
    parseVal (f+1) (c0 :: t) =
      (match parseIntTok (c0 :: t) with
       | some (n, r') => some (.jint n, r')
       | none => none) := by
  simp only [parseVal]
  rw [skipJWs_not_ws t hws]
  simp [hn, ht, hf, hbk, hq, hob, hg]

theorem parseElems_step (f : Nat) (cs : List Char) :
    parseElems (f+1) cs =
      (match parseVal f cs with
       | none => none
       | some (v, r) =>
         match skipJWs r with
         | ',' :: r' =>
           (match parseElems f r' with
            | some (vs, r'') => some (v :: vs, r'')
            | none => none)
         | ']' :: r' => some ([v], r')
         | _ => none) := rfl

theorem parseMembers_step (f : Nat) (cs : List Char) :
    parseMembers (f+1) cs =
      (match skipJWs cs with
       | c :: r =>
         if c = dquote then
           match parseStrBody r with
           | none => none
           | some (key, r1) =>
             match skipJWs r1 with
             | ':' :: r2 =>
               (match parseVal f r2 with
                | none => none
                | some (v, r3) =>
                  match skipJWs r3 with
                  | ',' :: r4 =>
                    (match parseMembers f r4 with
                     | some (ms, r5) => some ((key, v) :: ms, r5)
                     | none => none)
                  | d :: r4 =>
                    if d = cbrace then some ([(key, v)], r4) else none
                  | [] => none)
             | _ => none
         else none
       | [] => none) := rfl

theorem parseMembers_key_step (f : Nat) (x : List Char) :
    parseMembers (f+1) (dquote :: x) =
      (match parseStrBody x with
       | none => none
       | some (key, r1) =>
         match skipJWs r1 with
         | ':' :: r2 =>
           (match parseVal f r2 with
            | none => none
            | some (v, r3) =>
              match skipJWs r3 with
              | ',' :: r4 =>
                (match parseMembers f r4 with
                 | some (ms, r5) => some ((key, v) :: ms, r5)
                 | none => none)
              | d :: r4 => if d = cbrace then some ([(key, v)], r4) else none
              | [] => none)
         | _ => none) := rfl

theorem parseVal_arr_step (f : Nat) (x : List Char) :
    parseVal (f+1) ('[' :: x) =
      (match skipJWs x with
       | [] => none
       | c' :: r' =>
         if c' = ']' then some (.jarr [], r')
         else
           match parseElems f (c' :: r') with
           | some (es, r') => some (.jarr es, r')
           | none => none) := rfl

theorem intDelim_of_head {c : Char} (t : List Char) (h : isDigitCh c = false) :
    intDelim (c :: t) = true := by
  simp [intDelim, h]

theorem parseVal_obj_step (f : Nat) (x : List Char) :
    parseVal (f+1) (obrace :: x) =
      (match skipJWs x with
       | d :: r' =>
         if d = cbrace then some (.jobj [], r')
         else
           (match parseMembers f (d :: r') with
            | some (ms, r'') => some (.jobj (pyDict ms), r'')
            | none => none)
       | [] => none) := rfl

theorem dumpElems_cons (x : JValue) (xs : List JValue) :
    dumpElems (x :: xs) = dumpVal x ++ dumpElemSep xs := rfl

theorem dumpElemSep_cons (x : JValue) (xs : List JValue) :
    dumpElemSep (x :: xs) = ',' :: ' ' :: dumpElems (x :: xs) := rfl

theorem dumpMembers_cons (k : List Char) (v : JValue) (ms : List (List Char × JValue)) :
    dumpMembers ((k, v) :: ms) = dumpStr k ++ ':' :: ' ' :: (dumpVal v ++ dumpMemberSep ms) := rfl

theorem dumpMemberSep_cons (k : List Char) (v : JValue) (ms : List (List Char × JValue)) :
    dumpMemberSep ((k, v) :: ms) = ',' :: ' ' :: dumpMembers ((k, v) :: ms) := rfl

theorem digit_not_value_start {c : Char} (h : isDigitCh c = true) :
    c ≠ 'n' ∧ c ≠ 't' ∧ c ≠ 'f' ∧ c ≠ '[' ∧ c ≠ dquote ∧ c ≠ obrace ∧ c ≠ '-' := by
  have hle : '0'.toNat ≤ c.toNat ∧ c.toNat ≤ '9'.toNat := by
    simp only [isDigitCh, Bool.and_eq_true, decide_eq_true_eq] at h
    exact ⟨h.1, h.2⟩
  refine ⟨?_, ?_, ?_, ?_, ?_, ?_, ?_⟩ <;>
    (intro he; rw [he] at hle; revert hle; decide)

theorem skipJWs_dumpElems (e : JValue) (es : List JValue) (x : List Char) :
    skipJWs (dumpElems (e :: es) ++ x) = dumpElems (e :: es) ++ x := by
  obtain ⟨c, t, hd, hws, _, _⟩ := dumpVal_head e
  rw [dumpElems_cons, hd]
  simp only [List.cons_append, List.append_assoc]
  exact skipJWs_not_ws _ hws

theorem skipJWs_dumpMembers (k : List Char) (v : JValue) (ms : List (List Char × JValue))
    (x : List Char) :
    skipJWs (dumpMembers ((k, v) :: ms) ++ x) = dumpMembers ((k, v) :: ms) ++ x := by
  rw [dumpMembers_cons]
  simp only [dumpStr, List.cons_append, List.append_assoc]
  exact skipJWs_not_ws _ (by decide)

mutual
theorem rt_val : ∀ (v : JValue) (fuel : Nat) (rest : List Char),
    goodKeysVal v = true → (dumpVal v).length < fuel → intDelim rest = true →
    parseVal fuel (dumpVal v ++ rest) = some (v, rest)
  | .jnull, fuel, rest, _, hf, _ => by
    cases fuel with
    | zero => simp [dumpVal] at hf
    | succ f => exact rfl
  | .jbool b, fuel, rest, _, hf, _ => by
    cases fuel with
    | zero => cases b <;> simp [dumpVal] at hf
    | succ f => cases b <;> exact rfl
  | .jint i, fuel, rest, _, hf, hr => by
    cases fuel with
    | zero => exact absurd hf (Nat.not_lt_zero _)
    | succ f =>
      by_cases hm : i < 0
      · have harg : dumpVal (.jint i) ++ rest = '-' :: (natChars i.natAbs [] ++ rest) := by
          simp [dumpVal, intChars, hm]
        rw [harg, parseVal_int_red f '-' _ (by decide) (by decide) (by decide) (by decide)
          (by decide) (by decide) (by decide) (by decide), ← harg]
        have hdi : dumpVal (.jint i) ++ rest = intChars i ++ rest := by simp [dumpVal]
        rw [hdi, parseIntTok_intChars i rest hr]
      · obtain ⟨c0, t0, h0, hc0⟩ := natChars_head i.natAbs
        obtain ⟨hn, ht, hfc, hbk, hq, hob, _⟩ := digit_not_value_start hc0
        obtain ⟨hws, _, _, _⟩ := digit_not_json_special hc0
        have harg : dumpVal (.jint i) ++ rest = c0 :: (t0 ++ rest) := by
          simp [dumpVal, intChars, hm, h0]
        rw [harg, parseVal_int_red f c0 _ hws hn ht hfc hbk hq hob (by simp [hc0]), ← harg]
        have hdi : dumpVal (.jint i) ++ rest = intChars i ++ rest := by simp [dumpVal]
        rw [hdi, parseIntTok_intChars i rest hr]
  | .jstr s, fuel, rest, _, hf, _ => by
    cases fuel with
    | zero => exact absurd hf (Nat.not_lt_zero _)
    | succ f =>
      have harg : dumpVal (.jstr s) ++ rest = dquote :: (escapeL s ++ [dquote] ++ rest) := by
        simp [dumpVal, dumpStr]
      rw [harg]
      have hred : parseVal (f+1) (dquote :: (escapeL s ++ [dquote] ++ rest)) =
          (match parseStrBody (escapeL s ++ [dquote] ++ rest) with
           | some (s', r') => some (.jstr s', r')
           | none => none) := rfl
      rw [hred, parseStrBody_dumpStr]
  | .jarr [], fuel, rest, _, hf, _ => by
    cases fuel with
    | zero => simp [dumpVal, dumpElems] at hf
    | succ f => exact rfl
  | .jarr (e :: es), fuel, rest, hg, hf, _ => by
    cases fuel with
    | zero => exact absurd hf (Nat.not_lt_zero _)
    | succ f =>
      have hgood : goodKeysArr (e :: es) = true := by
        simpa [goodKeysVal] using hg
      have harg : dumpVal (.jarr (e :: es)) ++ rest
          = '[' :: (dumpElems (e :: es) ++ ']' :: rest) := by
        simp [dumpVal]
      have hfe : (dumpElems (e :: es)).length + 1 < f := by
        simp only [dumpVal, List.length_cons, List.length_append] at hf
        omega
      have key := rt_elems e es f rest hgood hfe
      rw [harg, parseVal_arr_step, skipJWs_dumpElems]
      obtain ⟨c, t, hd, _, hbr, _⟩ := dumpVal_head e
      have hcons : dumpElems (e :: es) ++ ']' :: rest
          = c :: (t ++ dumpElemSep es ++ ']' :: rest) := by
        rw [dumpElems_cons, hd]
        simp [List.append_assoc]
      rw [hcons]
      simp only [if_neg hbr]
      rw [hcons.symm, key]
  | .jobj [], fuel, rest, _, hf, _ => by
    cases fuel with
    | zero => simp [dumpVal, dumpMembers] at hf
    | succ f => exact rfl
  | .jobj ((k, v) :: ms), fuel, rest, hg, hf, _ => by
    cases fuel with
    | zero => exact absurd hf (Nat.not_lt_zero _)
    | succ f =>
      have hg' : ((((k, v) :: ms).map Prod.fst).Nodup : Prop)
          ∧ goodKeysObj ((k, v) :: ms) = true := by
        have hgg := hg
        simp only [goodKeysVal, Bool.and_eq_true, decide_eq_true_eq] at hgg
        exact hgg
      have harg : dumpVal (.jobj ((k, v) :: ms)) ++ rest
          = obrace :: (dumpMembers ((k, v) :: ms) ++ cbrace :: rest) := by
        simp [dumpVal]
      have hfm : (dumpMembers ((k, v) :: ms)).length + 1 < f := by
        simp only [dumpVal, List.length_cons, List.length_append] at hf
        omega
      have key := rt_members (k, v) ms f rest hg'.2 hfm
      rw [harg, parseVal_obj_step, skipJWs_dumpMembers]
      have hcons : dumpMembers ((k, v) :: ms) ++ cbrace :: rest
          = dquote :: ((escapeL k ++ [dquote]) ++ ':' :: ' ' :: (dumpVal v ++ dumpMemberSep ms)
            ++ cbrace :: rest) := by
        rw [dumpMembers_cons]
        simp [dumpStr, List.append_assoc]
      rw [hcons]
      have hdq : ¬(dquote = cbrace) := by decide
      simp only [if_neg hdq]
      rw [hcons.symm, key]
      show some (JValue.jobj (pyDict ((k, v) :: ms)), rest) = _
      rw [pyDict_nodup _ hg'.1]
termination_by v _ _ _ _ _ => sizeOf v

theorem rt_elems : ∀ (e : JValue) (es : List JValue) (fuel : Nat) (rest : List Char),
    goodKeysArr (e :: es) = true → (dumpElems (e :: es)).length + 1 < fuel →
    parseElems fuel (dumpElems (e :: es) ++ ']' :: rest) = some (e :: es, rest)
  | e, [], fuel, rest, hg, hf => by
    cases fuel with
    | zero => omega
    | succ f =>
      have hge : goodKeysVal e = true := by
        simp only [goodKeysArr, Bool.and_eq_true] at hg
        exact hg.1
      have hfe : (dumpVal e).length < f := by
        simp only [dumpElems, dumpElemSep, List.append_nil, List.length_append] at hf
        omega
      have hv := rt_val e f (']' :: rest) hge hfe (intDelim_of_head _ (by decide))
      have harg : dumpElems (e :: []) ++ ']' :: rest = dumpVal e ++ ']' :: rest := by
        simp [dumpElems, dumpElemSep]
      rw [harg, parseElems_step, hv]
      show (match skipJWs (']' :: rest) with
        | ',' :: r' =>
          (match parseElems f r' with
           | some (vs, r'') => some ((e :: vs : List JValue), r'')
           | none => none)
        | ']' :: r' => some ([e], r')
        | _ => none) = some ([e], rest)
      rw [skipJWs_not_ws _ (by decide : isJsonWs ']' = false)]
      rfl
  | e, x :: xs, fuel, rest, hg, hf => by
    cases fuel with
    | zero => omega
    | succ f =>
      have hge : goodKeysVal e = true := by
        simp only [goodKeysArr, Bool.and_eq_true] at hg
        exact hg.1
      have hgtail : goodKeysArr (x :: xs) = true := by
        simp only [goodKeysArr, Bool.and_eq_true] at hg ⊢
        exact ⟨hg.2.1, hg.2.2⟩
      have hlen : (dumpElems (e :: x :: xs)).length
          = (dumpVal e).length + 2 + (dumpElems (x :: xs)).length := by
        rw [dumpElems_cons, dumpElemSep_cons]
        simp [List.length_append]
        omega
      have hfe : (dumpVal e).length < f := by omega
      have hfx : (dumpElems (x :: xs)).length + 1 < f := by omega
      have hv := rt_val e f (',' :: ' ' :: (dumpElems (x :: xs) ++ ']' :: rest)) hge hfe
        (intDelim_of_head _ (by decide))
      have key := rt_elems x xs f rest hgtail hfx
      have harg : dumpElems (e :: x :: xs) ++ ']' :: rest
          = dumpVal e ++ ',' :: ' ' :: (dumpElems (x :: xs) ++ ']' :: rest) := by
        rw [dumpElems_cons, dumpElemSep_cons]
        simp [List.append_assoc]
      rw [harg, parseElems_step, hv]
      show (match skipJWs (',' :: ' ' :: (dumpElems (x :: xs) ++ ']' :: rest)) with
        | ',' :: r' =>
          (match parseElems f r' with
           | some (vs, r'') => some ((e :: vs : List JValue), r'')
           | none => none)
        | ']' :: r' => some ([e], r')
        | _ => none) = some (e :: x :: xs, rest)
      rw [skipJWs_not_ws _ (by decide : isJsonWs ',' = false)]
      show (match parseElems f (' ' :: (dumpElems (x :: xs) ++ ']' :: rest)) with
        | some (vs, r'') => some ((e :: vs : List JValue), r'')
        | none => none) = some (e :: x :: xs, rest)
      rw [parseElems_ws, key]
termination_by e es _ _ _ _ => sizeOf e + sizeOf es

theorem rt_members : ∀ (kv : List Char × JValue) (ms : List (List Char × JValue))
    (fuel : Nat) (rest : List Char),
    goodKeysObj (kv :: ms) = true → (dumpMembers (kv :: ms)).length + 1 < fuel →
    parseMembers fuel (dumpMembers (kv :: ms) ++ cbrace :: rest) = some (kv :: ms, rest)
  | (k, v), [], fuel, rest, hg, hf => by
    cases fuel with
    | zero => omega
    | succ f =>
      have hgv : goodKeysVal v = true := by
        simp only [goodKeysObj, Bool.and_eq_true] at hg
        exact hg.1
      have hfv : (dumpVal v).length < f := by
        rw [dumpMembers_cons] at hf
        simp only [dumpMemberSep, dumpStr, List.append_nil, List.length_append,
          List.length_cons] at hf
        omega
      have hv := rt_val v f (cbrace :: rest) hgv hfv (intDelim_of_head _ (by decide))
      have harg : dumpMembers ((k, v) :: []) ++ cbrace :: rest
          = dquote :: (escapeL k ++ [dquote] ++ (':' :: ' ' :: (dumpVal v ++ cbrace :: rest))) := by
        rw [dumpMembers_cons]
        simp [dumpStr, dumpMemberSep, List.append_assoc]
      have s1 : skipJWs (':' :: ' ' :: (dumpVal v ++ cbrace :: rest))
          = ':' :: ' ' :: (dumpVal v ++ cbrace :: rest) := skipJWs_not_ws _ (by decide)
      have s2 : skipJWs (cbrace :: rest) = cbrace :: rest := skipJWs_not_ws _ (by decide)
      have hcb : ¬(cbrace = ',') := by decide
      rw [harg, parseMembers_key_step]
      simp only [parseStrBody_dumpStr, s1, parseVal_ws, hv, s2]
      rfl
  | (k, v), (k', v') :: ms, fuel, rest, hg, hf => by
    cases fuel with
    | zero => omega
    | succ f =>
      have hgv : goodKeysVal v = true := by
        simp only [goodKeysObj, Bool.and_eq_true] at hg
        exact hg.1
      have hgtail : goodKeysObj ((k', v') :: ms) = true := by
        simp only [goodKeysObj, Bool.and_eq_true] at hg ⊢
        exact ⟨hg.2.1, hg.2.2⟩
      have hlen : (dumpMembers ((k, v) :: (k', v') :: ms)).length
          = (dumpStr k).length + 2 + (dumpVal v).length + 2
            + (dumpMembers ((k', v') :: ms)).length := by
        rw [dumpMembers_cons k v ((k', v') :: ms), dumpMemberSep_cons]
        simp [List.length_append]
        omega
      have hfv : (dumpVal v).length < f := by omega
      have hfx : (dumpMembers ((k', v') :: ms)).length + 1 < f := by omega
      have hv := rt_val v f
        (',' :: ' ' :: (dumpMembers ((k', v') :: ms) ++ cbrace :: rest)) hgv hfv
        (intDelim_of_head _ (by decide))
      have key := rt_members (k', v') ms f rest hgtail hfx
      have harg : dumpMembers ((k, v) :: (k', v') :: ms) ++ cbrace :: rest
          = dquote :: (escapeL k ++ [dquote] ++ (':' :: ' ' :: (dumpVal v
            ++ ',' :: ' ' :: (dumpMembers ((k', v') :: ms) ++ cbrace :: rest)))) := by
        rw [dumpMembers_cons k v ((k', v') :: ms), dumpMemberSep_cons]
        simp [dumpStr, List.append_assoc]
      have s1 : skipJWs (':' :: ' ' :: (dumpVal v
            ++ ',' :: ' ' :: (dumpMembers ((k', v') :: ms) ++ cbrace :: rest)))
          = ':' :: ' ' :: (dumpVal v
            ++ ',' :: ' ' :: (dumpMembers ((k', v') :: ms) ++ cbrace :: rest)) :=
        skipJWs_not_ws _ (by decide)
      have s2 : skipJWs (',' :: ' ' :: (dumpMembers ((k', v') :: ms) ++ cbrace :: rest))
          = ',' :: ' ' :: (dumpMembers ((k', v') :: ms) ++ cbrace :: rest) :=
        skipJWs_not_ws _ (by decide)
      rw [harg, parseMembers_key_step]
      simp only [parseStrBody_dumpStr, s1, parseVal_ws, hv, s2, parseMembers_ws, key]
termination_by kv ms _ _ _ _ => sizeOf kv + sizeOf ms
end

/-- Codec round-trip: `json.loads` recovers any serialised value whose object
key lists are duplicate-free. -/
theorem jparse_dump (v : JValue) (hg : goodKeysVal v = true) :
    jparse (dumpVal v) = some v := by
  have hrt := rt_val v ((dumpVal v).length + 1) [] hg (by omega) rfl
  rw [List.append_nil] at hrt
  simp [jparse, hrt, skipJWs]

/-! ### Substrings and Python `str.split` -/

/-- Case-sensitive literal match at the start, returning the rest. -/
def matchCS : List Char → List Char → Option (List Char)
  | [], s => some s
  | _ :: _, [] => none
  | l :: ls, c :: cs => if c = l then matchCS ls cs else none

/-- Whether `s` starts with `pat` (case-sensitive). -/
def startsWithL (pat s : List Char) : Bool :=
  (matchCS pat s).isSome

/-- Python `pat in s`: substring containment. -/
def containsSub (pat : List Char) : List Char → Bool
  | [] => startsWithL pat []
  | c :: cs => startsWithL pat (c :: cs) || containsSub pat cs

/-- Everything before the first occurrence of `pat` and the rest after it. -/
def splitAtFirstSub (pat : List Char) : List Char → Option (List Char × List Char)
  | [] => if pat = [] then some ([], []) else none
  | c :: cs =>
    if startsWithL pat (c :: cs) then some ([], (c :: cs).drop pat.length)
    else (splitAtFirstSub pat cs).map (fun pr => (c :: pr.1, pr.2))

/-- Python `str.split(sep)` for a nonempty separator: non-overlapping
occurrences scanned left to right, empty pieces kept. -/
def pySplitGo (sep : List Char) : Nat → List Char → List Char → List (List Char)
  | _, acc, [] => [acc.reverse]
  | 0, acc, rest => [acc.reverse ++ rest]
  | fuel + 1, acc, c :: cs =>
    if startsWithL sep (c :: cs) then
      acc.reverse :: pySplitGo sep fuel [] ((c :: cs).drop sep.length)
    else pySplitGo sep fuel (c :: acc) cs

def pySplit (sep s : List Char) : List (List Char) := pySplitGo sep s.length [] s

/-! ### Markdown fence stripping and the strict-JSON projection

Embedding of `_parse_ai_response` lines 408-433. -/

def fenceJson : List Char := ("```json").toList
def fenceTicks : List Char := ("```").toList

/-- Lines 410-418: strip, then cut the content between markdown fences when
present (`split("```json")[1].split("```")[0]`, or the plain-fence variant),
then strip again. -/
def fenceStrip (resp : List Char) : List Char :=
  let r := pyStrip resp
  let r2 :=
    if containsSub fenceJson r then
      (pySplit fenceTicks ((pySplit fenceJson r).getD 1 [])).getD 0 []
    else if containsSub fenceTicks r then
      (pySplit fenceTicks ((pySplit fenceTicks r).getD 1 [])).getD 0 []
    else r
  pyStrip r2

/-! The canonical keys of the analysis-result shape. -/

def kTables : List Char := ("tables").toList
def kRelationships : List Char := ("relationships").toList
def kCodeSnippets : List Char := ("code_snippets").toList
def kDataSources : List Char := ("data_sources").toList
def kDataTransformations : List Char := ("data_transformations").toList
def kReuse : List Char := ("potential_reuse_opportunities").toList
def kDocSummary : List Char := ("documentation_summary").toList
def kModelUsed : List Char := ("model_used").toList
def kName : List Char := ("name").toList
def kFields : List Char := ("fields").toList
def kType : List Char := ("type").toList
def kDescription : List Char := ("description").toList
def kConstraints : List Char := ("constraints").toList
def kFromTable : List Char := ("from_table").toList
def kFromFields : List Char := ("from_fields").toList
def kToTable : List Char := ("to_table").toList
def kToFields : List Char := ("to_fields").toList
def kFromField : List Char := ("from_field").toList
def kToField : List Char := ("to_field").toList
def kCode : List Char := ("code").toList
def kLanguage : List Char := ("language").toList

/-- The seven canonical keys, in the order every return path emits them. -/
def canonicalKeys : List (List Char) :=
  [kTables, kRelationships, kCodeSnippets, kDataSources, kDataTransformations,
   kReuse, kDocSummary]

/-- Python `dict.get(k, default)`. -/
def jGet (kvs : List (List Char × JValue)) (k : List Char) (d : JValue) : JValue :=
  match kvs with
  | [] => d
  | (k', v) :: rest => if k' = k then v else jGet rest k d

/-- Lines 425-433: the strict-JSON projection onto the seven canonical keys,
with empty-list / empty-string defaults for missing keys.  Any other key of
the parsed object — `model_used` included — is dropped. -/
def strictProject (kvs : List (List Char × JValue)) : List (List Char × JValue) :=
  [(kTables, jGet kvs kTables (.jarr [])),
   (kRelationships, jGet kvs kRelationships (.jarr [])),
   (kCodeSnippets, jGet kvs kCodeSnippets (.jarr [])),
   (kDataSources, jGet kvs kDataSources (.jarr [])),
   (kDataTransformations, jGet kvs kDataTransformations (.jarr [])),
   (kReuse, jGet kvs kReuse (.jarr [])),
   (kDocSummary, jGet kvs kDocSummary (.jstr []))]

/-! ### The regex fallback of `_parse_ai_response` (lines 438-556)

Each of the source's fallback regexes is embedded as an explicit matcher.
Lazy quantifiers are realised as shortest-first searches with backtracking
over later candidates where a continuation can fail; greedy runs are maximal
munch, complete at every use site for the reason noted at `matchCI`. -/

def litclass : List Char := ("class").toList
def littable : List Char := ("table").toList
def litself : List Char := ("self.").toList
def litrelationship : List Char := ("relationship").toList
def litforeign : List Char := ("foreign").toList
def litkey : List Char := ("key").toList
def litreferences : List Char := ("references").toList
def litsummary : List Char := ("summary").toList
def litdocumentation : List Char := ("documentation").toList
def litid : List Char := ("id").toList
def nlnl : List Char := ("\n\n").toList

/-- First success of `f` over a list of candidates, in order. -/
def firstHit {α β : Type} (f : α → Option β) : List α → Option β
  | [] => none
  | a :: as => (f a) <|> firstHit f as

/-- Everything before the first `}` and the rest after it (regex `([^}]+)}`
requires the group nonempty). -/
def splitAtRBrace : List Char → Option (List Char × List Char)
  | [] => none
  | c :: cs =>
    if c = cbrace then some ([], cs)
    else (splitAtRBrace cs).map (fun br => (c :: br.1, br.2))

/-- Regex `[\s\n]*{([^}]+)}`: skip whitespace, an opening brace, a nonempty
run up to the first closing brace. -/
def braceTail (t : List Char) : Option (List Char × List Char) := do
  let u := skipWs t
  let v ← match u with
    | c :: v => if c = obrace then some v else none
    | [] => none
  let (g, r) ← splitAtRBrace v
  if g = [] then none else pure (g, r)

/-- Candidate rests after each `)` reachable without crossing a newline
(the lazy `\(.*?\)` group), nearest first. -/
def rparenCands : List Char → List (List Char)
  | [] => []
  | c :: cs =>
    if c = ')' then cs :: rparenCands cs
    else if c = '\n' then []
    else rparenCands cs

/-- Attempts `(?:class|table)\s+(\w+)(?:\(.*?\))?[\s\n]*{([^}]+)}` at one
start position (`table_pattern`, line 450); returns name group, fields group
and the rest after the match. -/
def matchTableAt (s : List Char) : Option ((List Char × List Char) × List Char) := do
  let t ← (matchCI litclass s) <|> (matchCI littable s)
  let t ← ws1 t
  let (nm, t2) := t.span isWordChar
  if nm = [] then none
  else
    let withParen : Option (List Char × List Char) :=
      match t2 with
      | '(' :: u => firstHit braceTail (rparenCands u)
      | _ => none
    let (g, r) ← withParen <|> braceTail t2
    pure ((nm, g), r)

/-- The `re.finditer` loop for `table_pattern`. -/
def findTablesFuel : Nat → List Char → List (List Char × List Char)
  | 0, _ => []
  | _, [] => []
  | fuel + 1, c :: cs =>
    match matchTableAt (c :: cs) with
    | some (ng, rest) => ng :: findTablesFuel fuel rest
    | none => findTablesFuel fuel cs

def findTables (s : List Char) : List (List Char × List Char) :=
  findTablesFuel s.length s

/-- Lowercasing for the type-keyword containment checks. -/
def toLowerL (s : List Char) : List Char := s.map Char.toLower

def typeWords : List (List Char) :=
  [("str").toList, ("int").toList, ("float").toList, ("bool").toList,
   ("list").toList, ("dict").toList, ("any").toList]

/-- The type cleanup of lines 469-479: keep a type that mentions a known
keyword, otherwise infer from the shape of the value literal. -/
def cleanFieldType (ft : List Char) : List Char :=
  if ft ≠ [] ∧ ¬ (typeWords.any (fun tw => containsSub tw (toLowerL ft))) then
    match ft with
    | c :: _ =>
      if c = dquote ∨ c = squote then ("str").toList
      else
        let noDots := ft.filter (fun c => ¬ (c = '.'))
        if noDots ≠ [] ∧ noDots.all isDigitCh then
          if containsSub [('.' : Char)] ft then ("float").toList else ("int").toList
        else if toLowerL ft = ("true").toList ∨ toLowerL ft = ("false").toList then
          ("bool").toList
        else ("any").toList
    | [] => ("any").toList
  else ft

/-- Builds one field dictionary (lines 481-485). -/
def fieldDict (nm ft ds : List Char) : JValue :=
  .jobj [(kName, .jstr (pyStrip nm)),
    (kType, .jstr (if ft = [] then ("any").toList else pyStrip (cleanFieldType ft))),
    (kDescription, .jstr (pyStrip ds))]

/-- The optional trailing comment group `(?:\s*#\s*(.+))?`: whitespace, `#`,
whitespace, then at least one non-newline character, greedily to the end of
the line. -/
def commentTail (t : List Char) : Option (List Char × List Char) := do
  let u := skipWs t
  let v ← match u with
    | c :: v => if c = '#' then some v else none
    | [] => none
  let w := skipWs v
  let (g, r) := w.span (fun c => ¬ (c = '\n'))
  if g = [] then none else pure (g, r)

/-- Attempts field pattern 1,
`(\w+)\s*:\s*([\w\[\]\.]+)(?:\s*=\s*[^,\n]+)?(?:\s*#\s*(.+))?`, at one start
position. -/
def fieldP1At (s : List Char) : Option ((List Char × List Char × List Char) × List Char) := do
  let (nm, t1) := s.span isWordChar
  if nm = [] then none
  else
    let t2 := skipWs t1
    let t3 ← match t2 with
      | c :: v => if c = ':' then some v else none
      | [] => none
    let t4 := skipWs t3
    let (ty, t5) := t4.span (fun c => isWordChar c || c = '[' || c = ']' || c = '.')
    if ty = [] then none
    else
      let afterVal :=
        match (do
          let u := skipWs t5
          let v ← match u with
            | c :: v => if c = '=' then some v else none
            | [] => none
          let w := skipWs v
          let (g, r) := w.span (fun c => ¬ (c = ',' ∨ c = '\n'))
          if g = [] then none else pure r) with
        | some r => r
        | none => t5
      match commentTail afterVal with
      | some (ds, r) => pure ((nm, ty, ds), r)
      | none => pure ((nm, ty, []), afterVal)

/-- Attempts field pattern 2, `self\.(\w+)\s*=\s*([^#\n]+)(?:\s*#\s*(.+))?`
(case-sensitive literal `self.`), at one start position. -/
def fieldP2At (s : List Char) : Option ((List Char × List Char × List Char) × List Char) := do
  let t0 ← matchCS litself s
  let (nm, t1) := t0.span isWordChar
  if nm = [] then none
  else
    let t2 := skipWs t1
    let t3 ← match t2 with
      | c :: v => if c = '=' then some v else none
      | [] => none
    let t4 := skipWs t3
    let (vl, t5) := t4.span (fun c => ¬ (c = '#' ∨ c = '\n'))
    if vl = [] then none
    else
      match commentTail t5 with
      | some (ds, r) => pure ((nm, vl, ds), r)
      | none => pure ((nm, vl, []), t5)

/-- Attempts field pattern 3, `(\w+)\s*=\s*([^#\n]+)(?:\s*#\s*(.+))?`, at one
start position. -/
def fieldP3At (s : List Char) : Option ((List Char × List Char × List Char) × List Char) := do
  let (nm, t1) := s.span isWordChar
  if nm = [] then none
  else
    let t2 := skipWs t1
    let t3 ← match t2 with
      | c :: v => if c = '=' then some v else none
      | [] => none
    let t4 := skipWs t3
    let (vl, t5) := t4.span (fun c => ¬ (c = '#' ∨ c = '\n'))
    if vl = [] then none
    else
      match commentTail t5 with
      | some (ds, r) => pure ((nm, vl, ds), r)
      | none => pure ((nm, vl, []), t5)

/-- The `re.finditer` loop for one field pattern over the fields text. -/
def findFieldsFuel (p : List Char → Option ((List Char × List Char × List Char) × List Char)) :
    Nat → List Char → List (List Char × List Char × List Char)
  | 0, _ => []
  | _, [] => []
  | fuel + 1, c :: cs =>
    match p (c :: cs) with
    | some (g, rest) => g :: findFieldsFuel p fuel rest
    | none => findFieldsFuel p fuel cs

/-- All fields of one table block: the three patterns applied in order, all
matches appended (lines 457-485). -/
def extractFields (fieldsText : List Char) : List JValue :=
  ([fieldP1At, fieldP2At, fieldP3At].flatMap
    (fun p => findFieldsFuel p fieldsText.length fieldsText)).map
    (fun g => fieldDict g.1 g.2.1 g.2.2)

/-- The raw table blocks with their extracted fields; a table is kept only
when it has at least one field (line 487). -/
def extractTablesRaw (resp : List Char) : List (List Char × List JValue) :=
  (findTables resp).filterMap (fun ng =>
    match extractFields ng.2 with
    | [] => none
    | f :: fs => some (ng.1, f :: fs))

def tableJ (nm : List Char) (fs : List JValue) : JValue :=
  .jobj [(kName, .jstr nm), (kFields, .jarr fs)]

def extractTables (resp : List Char) : List JValue :=
  (extractTablesRaw resp).map (fun nf => tableJ nf.1 nf.2)

/-- Attempts relationship pattern 1,
`(?:relationship|foreign[\s_]key):\s*(\w+)\.(\w+)\s*->\s*(\w+)\.(\w+)`, at
one start position; returns the four groups and the rest. -/
def relP1At (s : List Char) :
    Option ((List Char × List Char × List Char × List Char) × List Char) := do
  let t ← (matchCI litrelationship s) <|> (do
    let u ← matchCI litforeign s
    let u ← match u with
      | c :: v => if isPyWs c ∨ c = '_' then some v else none
      | [] => none
    matchCI litkey u)
  let t ← match t with
    | c :: v => if c = ':' then some v else none
    | [] => none
  let t := skipWs t
  let (g1, t) := t.span isWordChar
  if g1 = [] then none
  else
    let t ← match t with
      | c :: v => if c = '.' then some v else none
      | [] => none
    let (g2, t) := t.span isWordChar
    if g2 = [] then none
    else
      let t := skipWs t
      let t ← match t with
        | '-' :: '>' :: v => some v
        | _ => none
      let t := skipWs t
      let (g3, t) := t.span isWordChar
      if g3 = [] then none
      else
        let t ← match t with
          | c :: v => if c = '.' then some v else none
          | [] => none
        let (g4, t) := t.span isWordChar
        if g4 = [] then none else pure ((g1, g2, g3, g4), t)

/-- Attempts relationship pattern 2,
`(\w+)\s+references\s+(\w+)(?:\((\w+)\))?`, at one start position; returns
the two word groups, the optional column group and the rest. -/
def relP2At (s : List Char) :
    Option ((List Char × List Char × Option (List Char)) × List Char) := do
  let (g1, t) := s.span isWordChar
  if g1 = [] then none
  else
    let t ← ws1 t
    let t ← matchCI litreferences t
    let t ← ws1 t
    let (g2, t) := t.span isWordChar
    if g2 = [] then none
    else
      match t with
      | '(' :: u =>
        (match u.span isWordChar with
         | (g3, ')' :: r) => if g3 = [] then pure ((g1, g2, none), t) else pure ((g1, g2, some g3), r)
         | _ => pure ((g1, g2, none), t))
      | _ => pure ((g1, g2, none), t)

/-- Rests after each case-insensitive occurrence of `lit` reachable without
crossing a newline (the lazy `.*?` gaps of relationship pattern 3). -/
def ciOccs (lit : List Char) : List Char → List (List Char)
  | [] => []
  | c :: cs =>
    let here := match matchCI lit (c :: cs) with
      | some r => [r]
      | none => []
    if c = '\n' then here else here ++ ciOccs lit cs

/-- Attempts relationship pattern 3,
`(?:self\.)?(\w+)(?:\s*=\s*|\s*:\s*).*?(?:id|ID|Id).*?#.*?(?:References|references|REFERENCES)\s+(\w+)`,
at one start position.  The lazy chains backtrack over successive candidate
occurrences; the `self.` prefix and the `=`/`:` separators are tried in the
regex's alternation order with fallback on continuation failure. -/
def relP3At (s : List Char) : Option ((List Char × List Char) × List Char) :=
  let tail : List Char → Option (List Char × List Char) := fun t5 => do
    let t6 ← ws1 t5
    let (g2, r) := t6.span isWordChar
    if g2 = [] then none else pure (g2, r)
  let fromSep : List Char → Option (List Char × List Char) := fun t2 =>
    firstHit (fun t3 =>
      firstHit (fun t4 =>
        firstHit tail (ciOccs litreferences t4))
        (ciOccs [('#' : Char)] t3))
      (ciOccs litid t2)
  let attempt : List Char → Option ((List Char × List Char) × List Char) := fun t0 => do
    let (g1, t1) := t0.span isWordChar
    if g1 = [] then none
    else
      let trySep : Char → Option (List Char × List Char) := fun ch => do
        let u := skipWs t1
        let v ← match u with
          | c :: v => if c = ch then some v else none
          | [] => none
        fromSep (skipWs v)
      match (trySep '=') <|> (trySep ':') with
      | some (g2, r) => pure ((g1, g2), r)
      | none => none
  (do
    let t0 ← matchCI litself s
    attempt t0) <|> attempt s

/-- The `re.finditer` loops for the three relationship patterns; each match
is appended as the dictionary its branch builds (lines 500-522). -/
def findRelsFuel {γ : Type} (p : List Char → Option (γ × List Char)) :
    Nat → List Char → List γ
  | 0, _ => []
  | _, [] => []
  | fuel + 1, c :: cs =>
    match p (c :: cs) with
    | some (g, rest) => g :: findRelsFuel p fuel rest
    | none => findRelsFuel p fuel cs

def vForeignKey : List Char := ("foreign_key").toList

def extractRels (resp : List Char) : List JValue :=
  ((findRelsFuel relP1At resp.length resp).map (fun g =>
    JValue.jobj [(kFromTable, .jstr g.1), (kFromField, .jstr g.2.1),
      (kToTable, .jstr g.2.2.1), (kToField, .jstr g.2.2.2),
      (kType, .jstr vForeignKey)]))
  ++ ((findRelsFuel relP2At resp.length resp).map (fun g =>
    JValue.jobj [(kFromTable, .jstr g.1), (kToTable, .jstr g.2.1),
      (kToField, match g.2.2 with | some c => .jstr c | none => .jnull),
      (kType, .jstr vForeignKey)]))
  ++ ((findRelsFuel relP3At resp.length resp).map (fun g =>
    JValue.jobj [(kFromTable, .jstr g.1), (kToTable, .jstr g.2),
      (kType, .jstr vForeignKey)]))

/-- Attempts the code-snippet pattern  with backticks
(three backticks, `(\w+)?\n(.*?)` and closing backticks, `re.DOTALL`) at one
start position; returns the optional language group, the code group, and the
rest after the closing fence. -/
def snippetAt (s : List Char) : Option ((Option (List Char) × List Char) × List Char) := do
  let t ← matchCS fenceTicks s
  let (lang, t1) := t.span isWordChar
  let t2 ← match t1 with
    | c :: v => if c = '\n' then some v else none
    | [] => none
  let (code, rest) ← splitAtFirstSub fenceTicks t2
  pure ((if lang = [] then none else some lang, code), rest)

def findSnippetsFuel : Nat → List Char → List (Option (List Char) × List Char)
  | 0, _ => []
  | _, [] => []
  | fuel + 1, c :: cs =>
    match snippetAt (c :: cs) with
    | some (g, rest) => g :: findSnippetsFuel fuel rest
    | none => findSnippetsFuel fuel cs

def vPython : List Char := ("python").toList

/-- Lines 524-533: every fenced block becomes a snippet dictionary, language
defaulting to `python` and lowercased, code stripped. -/
def extractSnippets (resp : List Char) : List JValue :=
  (findSnippetsFuel resp.length resp).map (fun g =>
    JValue.jobj [(kCode, .jstr (pyStrip g.2)),
      (kLanguage, .jstr (toLowerL (match g.1 with | some l => l | none => vPython))),
      (kDescription, .jstr [])])

/-- Continues a lazy capture until the rest starts with a blank line. -/
def lazyConsume : List Char → List Char
  | [] => []
  | d :: ds => if startsWithL nlnl (d :: ds) then [] else d :: lazyConsume ds

/-- The lazy summary capture `(.+?)(?=\n\n|\Z)` (`re.DOTALL`): at least one
character, up to the first blank line or the end of input. -/
def lazyUntilBlank : List Char → Option (List Char)
  | [] => none
  | c :: cs => some (c :: lazyConsume cs)

/-- The tail `:\s*(.+?)(?=\n\n|\Z)` shared by summary patterns 1 and 3: the
greedy whitespace run backtracks one character when the lazy group would
otherwise be left empty. -/
def summaryTail (u : List Char) : Option (List Char) :=
  let (wsRun, v) := u.span isPyWs
  match lazyUntilBlank v with
  | some g => some g
  | none =>
    match wsRun.reverse with
    | c :: _ => some [c]
    | [] => none

/-- Attempts summary pattern 1, `(?:summary|documentation):\s*(.+?)(?=\n\n|\Z)`,
at one start position. -/
def summaryP1At (s : List Char) : Option (List Char) := do
  let t ← (matchCI litsummary s) <|> (matchCI litdocumentation s)
  let u ← match t with
    | c :: v => if c = ':' then some v else none
    | [] => none
  summaryTail u

/-- Regex `\s*\n`: a greedy whitespace run that is backtracked to its last
newline; fails when the run has none. -/
def wsThenNl (u : List Char) : Option (List Char) :=
  let (r, v) := u.span isPyWs
  match splitAtFirstSub [('\n' : Char)] r.reverse with
  | some (bRev, _) => some (bRev.reverse ++ v)
  | none => none

/-- The smallest nonempty lazy split whose remainder satisfies `test`
(regex `(.+?)` followed by `test`, under `re.DOTALL`). -/
def lazySplit (test : List Char → Option (List Char)) : List Char → Option (List Char × List Char)
  | [] => none
  | c :: cs =>
    (match test cs with
     | some r => some ([c], r)
     | none => none)
    <|> (lazySplit test cs).map (fun pr => (c :: pr.1, pr.2))

/-- Attempts summary pattern 2, the docblock
`\/\*\*\s*\n\s*\*\s*(.+?)\s*\n\s*\*\/`, at one start position. -/
def summaryP2At (s : List Char) : Option (List Char) := do
  let t ← matchCS (("/**").toList) s
  let t1 ← wsThenNl t
  let t2 := skipWs t1
  let t3 ← match t2 with
    | c :: v => if c = '*' then some v else none
    | [] => none
  let t4 := skipWs t3
  let tail : List Char → Option (List Char) := fun u => do
    let u1 ← wsThenNl u
    let u2 := skipWs u1
    match u2 with
    | '*' :: '/' :: r => some r
    | _ => none
  let (g, _) ← lazySplit tail t4
  pure g

/-- Attempts summary pattern 3, `#\s*(.+?)(?=\n\n|\Z)`, at one start position. -/
def summaryP3At (s : List Char) : Option (List Char) := do
  let u ← match s with
    | c :: v => if c = '#' then some v else none
    | [] => none
  summaryTail u

/-- Lines 536-546: the three summary patterns, first match wins, captured
group stripped. -/
def extractSummary (resp : List Char) : Option (List Char) :=
  match searchSuffix summaryP1At resp with
  | some g => some (pyStrip g)
  | none =>
    match searchSuffix summaryP2At resp with
    | some g => some (pyStrip g)
    | none =>
      match searchSuffix summaryP3At resp with
      | some g => some (pyStrip g)
      | none => none

/-- Join with a separator (Python `', '.join` and friends). -/
def joinSep (sep : List Char) : List (List Char) → List Char
  | [] => []
  | [x] => x
  | x :: xs => x ++ sep ++ joinSep sep xs

/-- Lines 548-554: when no summary pattern matched, synthesise one from the
extracted table names and the relationship count; with no tables the summary
stays empty. -/
def synthSummary (names : List (List Char)) (relCount : Nat) : List Char :=
  match names with
  | [] => []
  | _ :: _ =>
    ("Code defines ").toList ++ natChars names.length []
      ++ (" main data structures: ").toList ++ joinSep ((", ").toList) names
      ++ (".").toList
      ++ (if relCount = 0 then []
          else (" Contains ").toList ++ natChars relCount []
            ++ (" relationships between entities.").toList)

/-- Lines 438-556: the regex fallback.  The skeleton dictionary is built with
all seven canonical keys; tables, relationships and code snippets are filled
by the extraction passes, the two remaining list fields always stay empty,
and the summary is the first pattern match or the synthesised sentence. -/
def regexFallback (resp : List Char) : List (List Char × JValue) :=
  let rawTables := extractTablesRaw resp
  let tables := rawTables.map (fun nf => tableJ nf.1 nf.2)
  let rels := extractRels resp
  let snips := extractSnippets resp
  let patSummary :=
    match extractSummary resp with
    | some g => g
    | none => []
  let summary :=
    if patSummary = [] then synthSummary (rawTables.map Prod.fst) rels.length
    else patSummary
  [(kTables, .jarr tables),
   (kRelationships, .jarr rels),
   (kCodeSnippets, .jarr snips),
   (kDataSources, .jarr []),
   (kDataTransformations, .jarr []),
   (kReuse, .jarr []),
   (kDocSummary, .jstr summary)]

/-- Embedding of `AnalysisService._parse_ai_response`
(`analysis_service.py:404-570`): strip and fence-cut the response, take the
strict-JSON projection when the text parses to a JSON object, otherwise run
the regex fallback.  The terminal `except` branch of the source (all list
fields empty plus an error summary) is reachable only through an exception
inside the fallback pass, which performs no raising operation; the embedding
is accordingly total. -/
def parseAiResponse (resp : List Char) : List (List Char × JValue) :=
  let r := fenceStrip resp
  match jparse r with
  | some (.jobj kvs) => strictProject kvs
  | _ => regexFallback r

/-! ### The analysis orchestrator

Embedding of `AnalysisService.analyze_code` (`analysis_service.py:158-343`)
and `AnalysisService.analyze_code_with_llm` (`analysis_service.py:1126-1153`).
The two generative providers and the persistence collaborator perform I/O, so
they enter the model as outcome parameters: an `Except` value standing for
the provider's response text or raised error, and an `Except` outcome for the
database commit that stores a newly created analysis. -/

/-- One alternative of the SQL-detection pattern: `CREATE\s+TABLE`. -/
def createTableAt (s : List Char) : Option Unit := do
  let t ← matchCI litCREATE s
  let t ← ws1 t
  let _ ← matchCI litTABLE t
  pure ()

/-- One alternative of the SQL-detection pattern: `ALTER\s+TABLE`. -/
def alterTableAt (s : List Char) : Option Unit := do
  let t ← matchCI litALTER s
  let t ← ws1 t
  let _ ← matchCI litTABLE t
  pure ()

/-- Suffixes after one, two, three, ... leading whitespace characters (the
choices of a greedy `\s+`). -/
def wsChoices : List Char → List (List Char)
  | [] => []
  | c :: cs => if isPyWs c then cs :: wsChoices cs else []

/-- Continuation `\s+FROM` of the `SELECT` alternative. -/
def fromTail (t : List Char) : Option Unit := do
  let u ← ws1 t
  let _ ← matchCI litFROM u
  pure ()

/-- The gap `.*` (greedy, no newline) before `\s+FROM`: some split of the
text at a non-newline prefix must let `fromTail` match. -/
def midScan : List Char → Bool
  | [] => (fromTail []).isSome
  | c :: cs =>
    (fromTail (c :: cs)).isSome || (!(c = '\n') && midScan cs)

/-- One alternative of the SQL-detection pattern: `SELECT\s+.*\s+FROM`. -/
def selectFromAt (s : List Char) : Option Unit := do
  let t ← matchCI litSELECT s
  if (wsChoices t).any midScan then pure () else none

/-- Embedding of the detection
`re.search(r"CREATE\s+TABLE|ALTER\s+TABLE|SELECT\s+.*\s+FROM", code, re.IGNORECASE)`
(`analysis_service.py:169`). -/
def containsSqlKeyword (code : List Char) : Bool :=
  (searchSuffix (fun s => (createTableAt s) <|> (alterTableAt s) <|> (selectFromAt s))
    code).isSome

def optStrJ : Option (List Char) → JValue
  | some s => .jstr s
  | none => .jnull

/-- The column dictionary of `parse_sql` as a JSON value. -/
def colToJ (c : ColumnDesc) : JValue :=
  .jobj [(kName, .jstr c.name), (kType, .jstr c.type),
    (kDescription, .jstr c.description),
    (kConstraints, .jarr (c.constraints.map JValue.jstr))]

/-- The relationship dictionary of `parse_sql` as a JSON value. -/
def relToJ (r : RelationshipDesc) : JValue :=
  .jobj [(kType, .jstr r.rtype), (kFromTable, optStrJ r.from_table),
    (kFromFields, .jarr (r.from_fields.map JValue.jstr)),
    (kToTable, .jstr r.to_table),
    (kToFields, .jarr (r.to_fields.map JValue.jstr))]

/-- The table dictionary of `parse_sql` as a JSON value. -/
def tableToJ (t : TableDesc) : JValue :=
  .jobj [(kName, optStrJ t.name), (kFields, .jarr (t.fields.map colToJ)),
    (kRelationships, .jarr (t.relationships.map relToJ))]

def vSqlAnalysis : List Char := ("sql_analysis").toList
def vSqlParser : List Char := ("SQL Parser").toList
def vSqlSchemaAnalysis : List Char := ("SQL schema analysis").toList
def vOpenAiModel : List Char := ("OpenAI GPT-3.5 Turbo").toList
def vGeminiModel : List Char := ("Gemini 1.5 Pro").toList

/-- The `results` dictionary of the deterministic early return
(`analysis_service.py:173-180`): the `parse_sql` result (keys `tables` and
`type`) merged with `model_used` and `documentation_summary`. -/
def sqlResultDict (code : List Char) : List (List Char × JValue) :=
  [(kTables, .jarr ((parseSqlTables code).map tableToJ)),
   (kType, .jstr vSqlAnalysis),
   (kModelUsed, .jstr vSqlParser),
   (kDocSummary, .jstr vSqlSchemaAnalysis)]

/-- The routing decision of `analyze_code` before any provider is contacted:
either the deterministic early return fires, or the provider chain runs. -/
inductive Routed where
  | sqlResult (results : List (List Char × JValue))
  | providers
deriving Repr

/-- Lines 167-180: when the text contains a SQL keyword and `parse_sql`
finds at least one table, return its result immediately; otherwise fall
through to the providers. -/
def analyzeCodeRoute (code : List Char) : Routed :=
  if containsSqlKeyword code then
    match parseSqlTables code with
    | [] => .providers
    | _ :: _ => .sqlResult (sqlResultDict code)
  else .providers

/-- The aggregated two-provider failure message of line 291. -/
def aggProviderMsg (oe ge : List Char) : List Char :=
  ("Both OpenAI and Gemini analysis failed. OpenAI error: ").toList ++ oe
    ++ (", Gemini error: ").toList ++ ge

/-- The persistence step of `analyze_code` (lines 296-316), decided by the
`analysis_id` / `user_id` arguments: `createNew` stands for `user_id` given
without `analysis_id` (a new `Analysis` row, lines 297-312), `updateExisting`
for `analysis_id` given (the `store_analysis_results` call of line 315), and
`noStore` for neither.  Each constructor carries the I/O outcome of its
database interaction; for `updateExisting` a failure covers both the
missing-row raise and the commit error inside `store_analysis_results`
(lines 345-363). -/
inductive StoreMode where
  | createNew (commit : Except (List Char) Unit)
  | updateExisting (store : Except (List Char) Unit)
  | noStore

/-- The error text each storage path raises: a failed creation commit is
wrapped as `Error creating new analysis: ...` (line 312), any failure inside
`store_analysis_results` as `Error storing analysis results: ...`
(line 363); successful or absent storage raises nothing. -/
def storeStep : StoreMode → Except (List Char) Unit
  | .createNew (.ok _) => .ok ()
  | .createNew (.error e) => .error (("Error creating new analysis: ").toList ++ e)
  | .updateExisting (.ok _) => .ok ()
  | .updateExisting (.error e) => .error (("Error storing analysis results: ").toList ++ e)
  | .noStore => .ok ()

/-- Embedding of `analyze_code`: the deterministic route, then OpenAI, then
Gemini (each response normalised through `_parse_ai_response` and stamped
with `model_used`), then the persistence step (creation commit, update
through `store_analysis_results`, or no storage).  Any error raised inside
the `try` body is re-raised as `Error analyzing code: ...` (lines 321-324);
the deterministic early return exits before the storage code runs. -/
def analyzeCodeFull (code : List Char)
    (openaiResp geminiResp : Except (List Char) (List Char))
    (store : StoreMode) :
    Except (List Char) (List (List Char × JValue)) :=
  let inner : Except (List Char) (List (List Char × JValue)) :=
    match analyzeCodeRoute code with
    | .sqlResult m => .ok m
    | .providers =>
      let attempt : Except (List Char) (List (List Char × JValue) × List Char) :=
        match openaiResp with
        | .ok r => .ok (parseAiResponse r, vOpenAiModel)
        | .error oe =>
          match geminiResp with
          | .ok r => .ok (parseAiResponse r, vGeminiModel)
          | .error ge => .error (aggProviderMsg oe ge)
      match attempt with
      | .error e => .error e
      | .ok (parsed, model) =>
        let result := dictSet parsed kModelUsed (.jstr model)
        match storeStep store with
        | .ok _ => .ok result
        | .error e => .error e
  match inner with
  | .ok m => .ok m
  | .error e => .error (("Error analyzing code: ").toList ++ e)

/-- Embedding of `analyze_code_with_llm` (`analysis_service.py:1126-1153`):
each configured provider is attempted in order, a success returns its value,
each failure is recorded, and when no attempt succeeded the aggregated
`HTTPException` detail carries every recorded reason. -/
def analyzeCodeWithLlm (openai gemini : Option (Except (List Char) JValue)) :
    Except (List Char) JValue :=
  let llmMsg : List (List Char) → List Char := fun errs =>
    ("LLM analysis failed with both services: ").toList ++ joinSep (("; ").toList) errs
  let tryGemini : List (List Char) → Except (List Char) JValue := fun errs =>
    match gemini with
    | some (.ok r) => .ok r
    | some (.error e) => .error (llmMsg (errs ++ [("Gemini Error: ").toList ++ e]))
    | none => .error (llmMsg errs)
  match openai with
  | some (.ok r) => .ok r
  | some (.error e) => tryGemini [("OpenAI Error: ").toList ++ e]
  | none => tryGemini []

/-! ### Supporting lemmas for the claims -/

theorem dropWhile_has_false {p : Char → Bool} : ∀ {s : List Char},
    (∃ c ∈ s, p c = false) → s.dropWhile p ≠ [] ∧ ∃ c ∈ s.dropWhile p, p c = false := by
  intro s h
  induction s with
  | nil => simp at h
  | cons a t ih =>
    by_cases ha : p a
    · have h' : ∃ c ∈ t, p c = false := by
        rcases h with ⟨c, hc, hpc⟩
        rcases List.mem_cons.mp hc with h1 | h2
        · subst h1; rw [ha] at hpc; cases hpc
        · exact ⟨c, h2, hpc⟩
      have := ih h'
      simpa [List.dropWhile_cons, ha] using this
    · refine ⟨?_, ?_⟩
      · simp [List.dropWhile_cons, ha]
      · refine ⟨a, ?_, by simpa using ha⟩
        simp [List.dropWhile_cons, ha]

/-- A list containing a character outside the trimmed class never trims to
nothing. -/
theorem trimBy_ne_nil {p : Char → Bool} {s : List Char}
    (h : ∃ c ∈ s, p c = false) : trimBy p s ≠ [] := by
  have h1 := dropWhile_has_false h
  have h2 : ∃ c ∈ (s.dropWhile p).reverse, p c = false := by
    rcases h1.2 with ⟨c, hc, hpc⟩
    exact ⟨c, List.mem_reverse.mpr hc, hpc⟩
  have h3 := dropWhile_has_false h2
  intro hnil
  rw [trimBy] at hnil
  have := List.reverse_eq_nil_iff.mp hnil
  exact h3.1 this

theorem word_not_tick {c : Char} (h : isWordChar c = true) : isTickQuote c = false := by
  by_contra hq
  rw [Bool.not_eq_false, isTickQuote] at hq
  rcases Bool.or_eq_true_iff.mp hq with h1 | h1
  · have : c = btick := by simpa using h1
    subst this; exact absurd h (by decide)
  · have : c = dquote := by simpa using h1
    subst this; exact absurd h (by decide)

theorem word_not_ws {c : Char} (h : isWordChar c = true) : isPyWs c = false := by
  by_contra hw
  rw [Bool.not_eq_false, isPyWs] at hw
  simp only [Bool.or_eq_true, decide_eq_true_eq] at hw
  rcases hw with ((((h1 | h1) | h1) | h1) | h1) | h1 <;>
    (subst h1; exact absurd h (by decide))

/-! ### The claims -/

set_option maxRecDepth 40000

/-- The two-statement DDL scenario of the specification's end-to-end example. -/
def c1input : List Char :=
  ("CREATE TABLE users (id INTEGER PRIMARY KEY, email TEXT UNIQUE); CREATE TABLE posts (id INTEGER PRIMARY KEY, user_id INTEGER, FOREIGN KEY (user_id) REFERENCES users(id));").toList

/-- A single CREATE TABLE statement whose body carries the literal fragment
`FOREIGN KEY (user_id) REFERENCES users(id)`. -/
def c2input : List Char :=
  ("CREATE TABLE posts (user_id INTEGER, FOREIGN KEY (user_id) REFERENCES users(id))").toList

/-- C1.  Evaluation of the end-to-end SQL scenario.  The spec promises two
tables (`users`: 2 columns; `posts`: 2 columns and 1 relationship to
`users.id`).  The code produces the two tables with the stated columns but
zero relationships: the lazy body group of `create_table_pattern`
(`([\s\S]*?)\)`) stops at the first `)`, which inside the `posts` statement
is the one closing `(user_id)`, so the `FOREIGN KEY ... REFERENCES users(id)`
text never reaches the fragment classifier, and the deterministic route
still fires with `model_used = "SQL Parser"`. -/
theorem C1_sql_scenario_eval :
    parseSqlTables c1input =
      [⟨some (("users").toList),
        [⟨("id").toList, ("INTEGER").toList, [], [("PRIMARY KEY").toList]⟩,
         ⟨("email").toList, ("TEXT").toList, [], [("UNIQUE").toList]⟩], []⟩,
       ⟨some (("posts").toList),
        [⟨("id").toList, ("INTEGER").toList, [], [("PRIMARY KEY").toList]⟩,
         ⟨("user_id").toList, ("INTEGER").toList, [], []⟩], []⟩]
    ∧ analyzeCodeRoute c1input = .sqlResult (sqlResultDict c1input)
    ∧ jGet (sqlResultDict c1input) kModelUsed .jnull = .jstr vSqlParser :=
  ⟨by decide, rfl, rfl⟩

/-- C2.  Evaluation against the universal foreign-key claim.  The input's
body contains the exact fragment `FOREIGN KEY (user_id) REFERENCES users(id)`,
yet the parse yields no relationship descriptor at all: the body captured for
`posts` is cut at the first `)` and the foreign-key pattern `([^)]+)\)` has
nothing left to match. -/
theorem C2_foreign_key_eval :
    containsSub (("FOREIGN KEY (user_id) REFERENCES users(id)").toList) c2input = true
    ∧ parseSqlTables c2input =
      [⟨some (("posts").toList),
        [⟨("user_id").toList, ("INTEGER").toList, [], []⟩], []⟩] :=
  ⟨by decide, by decide⟩

/-- Every return path of the normaliser emits exactly the seven canonical
keys, in order: the strict projection and the fallback skeleton both list
them literally. -/
theorem parseAiResponse_keys (s : List Char) :
    (parseAiResponse s).map Prod.fst = canonicalKeys := by
  simp only [parseAiResponse]
  cases h : jparse (fenceStrip s) with
  | none => rfl
  | some v => cases v <;> rfl

/-- C10.  For every input the normaliser's mapping has exactly the seven
canonical keys and no others; in particular `model_used` is never among
them, so an extra `model_used` key in valid JSON input is dropped. -/
theorem C10_canonical_keys_only (s : List Char) :
    (parseAiResponse s).map Prod.fst = canonicalKeys
      ∧ ¬ kModelUsed ∈ (parseAiResponse s).map Prod.fst := by
  refine ⟨parseAiResponse_keys s, ?_⟩
  rw [parseAiResponse_keys s]
  decide

/-- C4 counterexample.  On the deterministic SQL route the dictionary handed
back has only the four keys `tables`, `type`, `model_used`,
`documentation_summary`: `relationships` (and the other canonical list
fields) are absent, so this path is not a fully populated AnalysisResult. -/
theorem C4_sql_path_missing_keys :
    analyzeCodeRoute c1input = .sqlResult (sqlResultDict c1input)
      ∧ (sqlResultDict c1input).map Prod.fst = [kTables, kType, kModelUsed, kDocSummary]
      ∧ ¬ kRelationships ∈ (sqlResultDict c1input).map Prod.fst :=
  ⟨rfl, rfl, by decide⟩

/-- C4 (amended).  The normaliser's paths (strict JSON, regex fallback) do
return all seven canonical fields with empty defaults; the deterministic
SQL-parser path does not: it returns exactly the keys `tables`, `type`,
`model_used`, `documentation_summary`. -/
theorem C4_populated_fields :
    (∀ s, (parseAiResponse s).map Prod.fst = canonicalKeys)
      ∧ (∀ code m, analyzeCodeRoute code = .sqlResult m →
          m.map Prod.fst = [kTables, kType, kModelUsed, kDocSummary]) := by
  refine ⟨parseAiResponse_keys, ?_⟩
  intro code m h
  simp only [analyzeCodeRoute] at h
  by_cases hsql : containsSqlKeyword code
  · rw [if_pos hsql] at h
    cases hp : parseSqlTables code with
    | nil => rw [hp] at h; cases h
    | cons t ts =>
      rw [hp] at h
      injection h with h1
      rw [← h1]
      rfl
  · rw [if_neg hsql] at h; cases h

/-- C4 witness: the amended theorem applied to the empty-ish input and the
concrete SQL scenario. -/
theorem C4_populated_fields_inst :
    (parseAiResponse (("x").toList)).map Prod.fst = canonicalKeys
      ∧ (sqlResultDict c1input).map Prod.fst = [kTables, kType, kModelUsed, kDocSummary] :=
  ⟨C4_populated_fields.1 (("x").toList),
   C4_populated_fields.2 c1input (sqlResultDict c1input) rfl⟩

/-- C3.  The column splitter splits only at commas that sit at parenthesis
depth 0 outside any string literal: joining any list of balanced, nonempty
fragments with commas and splitting again returns exactly those fragments
(stripped), one per definition — not one per comma.  Fragments with embedded
commas inside `DEFAULT (a,b)` or `CHECK (x IN (1,2))` clauses are balanced,
so they come back whole. -/
theorem C3_splitter_depth0 (fs : List (List Char))
    (h : ∀ f ∈ fs, balancedFragment f = true ∧ f ≠ []) :
    splitColumnDefs (joinComma fs) = fs.map pyStrip
      ∧ (splitColumnDefs (joinComma fs)).length = fs.length := by
  have he := splitColumnDefs_joinComma fs h
  exact ⟨he, by rw [he, List.length_map]⟩

/-- The three fragments of the C3 witness: two of them hide commas inside
`DEFAULT (a,b)` and `CHECK (x IN (1,2))` clauses. -/
def c3frags : List (List Char) :=
  [("id INTEGER PRIMARY KEY").toList,
   ("a TEXT DEFAULT (a,b)").toList,
   ("b INTEGER CHECK (x IN (1,2))").toList]

/-- C3 witness: the splitter applied to the comma-join of three fragments
with embedded commas yields the three fragments, although the join holds
five commas. -/
theorem C3_splitter_depth0_inst :
    (∀ f ∈ c3frags, balancedFragment f = true ∧ f ≠ [])
      ∧ (splitColumnDefs (joinComma c3frags) = c3frags.map pyStrip
          ∧ (splitColumnDefs (joinComma c3frags)).length = 3) :=
  ⟨by decide, C3_splitter_depth0 c3frags (by decide)⟩

/-- C6 counterexample.  The one-character input `x` is not JSON and matches
no extraction pattern, and the normaliser returns the empty string as
`documentation_summary` — not a non-empty error description: with no
extracted table names the summary-synthesis step (lines 548-556) produces
the empty string, and the stored value stays `""`. -/
theorem C6_empty_summary_cex :
    jparse (fenceStrip (("x").toList)) = none
      ∧ jGet (parseAiResponse (("x").toList)) kDocSummary .jnull = .jstr [] :=
  ⟨rfl, rfl⟩

/-- C6 (amended).  On any input that is not valid JSON and matches none of
the heuristic extraction patterns, the normaliser returns (it cannot raise:
the embedding is total) the skeleton whose list fields are all empty and
whose `documentation_summary` is the EMPTY string, not a non-empty error
description. -/
theorem C6_terminal_shape (s : List Char)
    (hj : jparse (fenceStrip s) = none)
    (ht : extractTablesRaw (fenceStrip s) = [])
    (hr : extractRels (fenceStrip s) = [])
    (hs : extractSnippets (fenceStrip s) = [])
    (hm : extractSummary (fenceStrip s) = none) :
    parseAiResponse s =
      [(kTables, .jarr []), (kRelationships, .jarr []), (kCodeSnippets, .jarr []),
       (kDataSources, .jarr []), (kDataTransformations, .jarr []), (kReuse, .jarr []),
       (kDocSummary, .jstr [])] := by
  simp only [parseAiResponse, hj]
  simp only [regexFallback, ht, hr, hs, hm]
  rfl

/-- C6 witness: the amended theorem applied at the concrete non-matching
input `x`, all hypotheses evaluated. -/
theorem C6_terminal_shape_inst :
    jparse (fenceStrip (("x").toList)) = none
      ∧ extractTablesRaw (fenceStrip (("x").toList)) = []
      ∧ parseAiResponse (("x").toList) =
        [(kTables, .jarr []), (kRelationships, .jarr []), (kCodeSnippets, .jarr []),
         (kDataSources, .jarr []), (kDataTransformations, .jarr []), (kReuse, .jarr []),
         (kDocSummary, .jstr [])] :=
  ⟨rfl, rfl, C6_terminal_shape (("x").toList) rfl rfl rfl rfl rfl⟩

/-- C7.  Deterministic routing: whenever the input contains one of the SQL
keywords and `parse_sql` yields at least one table, the orchestrator routes
to the deterministic result, stamps `model_used = "SQL Parser"`, and — for
every possible provider outcome and storage outcome — returns that result
untouched: no external provider influences the answer. -/
theorem C7_deterministic_route (code : List Char)
    (h1 : containsSqlKeyword code = true)
    (h2 : parseSqlTables code ≠ []) :
    analyzeCodeRoute code = .sqlResult (sqlResultDict code)
      ∧ jGet (sqlResultDict code) kModelUsed .jnull = .jstr vSqlParser
      ∧ ∀ (o g : Except (List Char) (List Char)) (store : StoreMode),
          analyzeCodeFull code o g store = .ok (sqlResultDict code) := by
  have hroute : analyzeCodeRoute code = .sqlResult (sqlResultDict code) := by
    simp only [analyzeCodeRoute, h1, if_true]
    cases hp : parseSqlTables code with
    | nil => exact absurd hp h2
    | cons t ts => rfl
  refine ⟨hroute, rfl, ?_⟩
  intro o g store
  simp only [analyzeCodeFull, hroute]

/-- C7 witness: the routing theorem at the concrete SQL scenario, with both
providers and the storage update all failing — the deterministic result is
returned regardless. -/
theorem C7_deterministic_route_inst :
    containsSqlKeyword c1input = true
      ∧ parseSqlTables c1input ≠ []
      ∧ analyzeCodeFull c1input (.error (("openai down").toList))
          (.error (("gemini down").toList)) (.updateExisting (.error (("db down").toList)))
          = .ok (sqlResultDict c1input) :=
  ⟨by decide, by decide,
   (C7_deterministic_route c1input (by decide) (by decide)).2.2 _ _ _⟩

/-- An AnalysisResult value restricted to the seven canonical fields, as the
spec's §3 shape serialises: the six sequence fields and the summary string. -/
def mkAnalysisResult (tb rl cs ds dt ro : List JValue) (sum : List Char) :
    List (List Char × JValue) :=
  [(kTables, .jarr tb), (kRelationships, .jarr rl), (kCodeSnippets, .jarr cs),
   (kDataSources, .jarr ds), (kDataTransformations, .jarr dt),
   (kReuse, .jarr ro), (kDocSummary, .jstr sum)]

/-- Stripping touches nothing on a brace-delimited text whose braces are not
in the stripped class. -/
theorem trimBy_braced (p : Char → Bool) (m : List Char)
    (h1 : p obrace = false) (h2 : p cbrace = false) :
    trimBy p (obrace :: (m ++ [cbrace])) = obrace :: (m ++ [cbrace]) := by
  rw [trimBy]
  rw [List.dropWhile_cons, if_neg (by simp [h1])]
  rw [show (obrace :: (m ++ [cbrace])).reverse = cbrace :: (m.reverse ++ [obrace]) by simp]
  rw [List.dropWhile_cons, if_neg (by simp [h2])]
  simp

theorem matchCS_append_isSome : ∀ (p q s : List Char),
    (matchCS (p ++ q) s).isSome = true → (matchCS p s).isSome = true := by
  intro p
  induction p with
  | nil => intro q s h; simp [matchCS]
  | cons a p ih =>
    intro q s h
    cases s with
    | nil => simp [matchCS] at h
    | cons c cs =>
      simp only [List.cons_append, matchCS] at h ⊢
      by_cases hc : c = a
      · rw [if_pos hc] at h ⊢; exact ih q cs h
      · rw [if_neg hc] at h; cases h

/-- Containment of the json fence entails containment of the plain fence. -/
theorem containsSub_fenceJson {s : List Char}
    (h : containsSub fenceJson s = true) : containsSub fenceTicks s = true := by
  induction s with
  | nil =>
    exact absurd h (by decide)
  | cons c cs ih =>
    simp only [containsSub, Bool.or_eq_true] at h ⊢
    rcases h with h1 | h1
    · exact .inl (matchCS_append_isSome fenceTicks (("json").toList) (c :: cs) h1)
    · exact .inr (ih h1)

/-- The canonical serialisation of a JSON object is untouched by the fence
strip when it holds no markdown fence. -/
theorem fenceStrip_dump (kvs : List (List Char × JValue))
    (hf : containsSub fenceTicks (dumpVal (.jobj kvs)) = false) :
    fenceStrip (dumpVal (.jobj kvs)) = dumpVal (.jobj kvs) := by
  have hshape : dumpVal (.jobj kvs) = obrace :: (dumpMembers kvs ++ [cbrace]) := rfl
  have hstrip : pyStrip (dumpVal (.jobj kvs)) = dumpVal (.jobj kvs) := by
    rw [hshape]
    exact trimBy_braced isPyWs (dumpMembers kvs) (by decide) (by decide)
  have hfj : containsSub fenceJson (dumpVal (.jobj kvs)) = false := by
    by_contra h'
    rw [Bool.not_eq_false] at h'
    rw [containsSub_fenceJson h'] at hf
    cases hf
  rw [fenceStrip, hstrip, hfj, hf]
  simp only [Bool.false_eq_true, if_false]
  exact hstrip

/-- A stored analysis result as `analyze_code` persists it: the seven
canonical fields plus the `model_used` stamp. -/
def c5stored : List (List Char × JValue) :=
  mkAnalysisResult [] [] [] [] [] [] (("ok").toList) ++ [(kModelUsed, .jstr vSqlParser)]

/-- C5 counterexample.  An AnalysisResult carrying its `model_used` stamp
(the shape `analyze_code` hands out and stores) does not survive the
strict-JSON round trip field for field: the strict projection keeps only the
seven canonical keys, so `model_used` is dropped. -/
theorem C5_model_used_dropped_cex :
    kModelUsed ∈ c5stored.map Prod.fst
      ∧ goodKeysVal (.jobj c5stored) = true
      ∧ ¬ kModelUsed ∈ (parseAiResponse (dumpVal (.jobj c5stored))).map Prod.fst := by
  refine ⟨by decide, by decide, ?_⟩
  rw [parseAiResponse_keys]
  decide

/-- C5 (amended).  Restricted to the seven canonical fields, the round trip
does hold: for every AnalysisResult value whose nested objects have distinct
keys and whose canonical serialisation contains no markdown fence, feeding
the serialisation back through the normaliser returns the identical value.
(The unrestricted claim fails: any extra field — `model_used` included — is
dropped, and a serialised string containing three backticks derails the
fence-stripping step.) -/
theorem C5_strict_roundtrip (tb rl cs ds dt ro : List JValue) (sum : List Char)
    (hg : goodKeysVal (.jobj (mkAnalysisResult tb rl cs ds dt ro sum)) = true)
    (hf : containsSub fenceTicks
        (dumpVal (.jobj (mkAnalysisResult tb rl cs ds dt ro sum))) = false) :
    parseAiResponse (dumpVal (.jobj (mkAnalysisResult tb rl cs ds dt ro sum)))
      = mkAnalysisResult tb rl cs ds dt ro sum := by
  have hfs := fenceStrip_dump _ hf
  have hj := jparse_dump _ hg
  simp only [parseAiResponse, hfs, hj]
  rfl

/-- C5 witness: the round trip evaluated at a concrete AnalysisResult. -/
theorem C5_strict_roundtrip_inst :
    goodKeysVal (.jobj (mkAnalysisResult [] [] [] [] [] [] (("s").toList))) = true
      ∧ containsSub fenceTicks
          (dumpVal (.jobj (mkAnalysisResult [] [] [] [] [] [] (("s").toList)))) = false
      ∧ parseAiResponse (dumpVal (.jobj (mkAnalysisResult [] [] [] [] [] [] (("s").toList))))
        = mkAnalysisResult [] [] [] [] [] [] (("s").toList) :=
  ⟨by decide, by decide,
   C5_strict_roundtrip [] [] [] [] [] [] (("s").toList) (by decide) (by decide)⟩

/-- C8 counterexample.  A raised error reaches the caller although a
provider (OpenAI) succeeded: the database commit for the newly created
analysis fails, `analyze_code` wraps the storage error and re-raises it as
`Error analyzing code: Error creating new analysis: ...`.  (The update path
behaves likewise: a failure inside `store_analysis_results` surfaces as
`Error analyzing code: Error storing analysis results: ...`.) -/
theorem C8_storage_error_cex :
    analyzeCodeFull (("print(1)").toList) (.ok (("x").toList))
        (.error (("g").toList)) (.createNew (.error (("db down").toList)))
      = .error (("Error analyzing code: Error creating new analysis: db down").toList)
    ∧ analyzeCodeFull (("print(1)").toList) (.ok (("x").toList))
        (.error (("g").toList)) (.updateExisting (.error (("row gone").toList)))
      = .error (("Error analyzing code: Error storing analysis results: row gone").toList) :=
  ⟨rfl, rfl⟩

/-- C8 (amended).  `analyze_code` propagates a raised error in exactly three
situations: both providers failed (the aggregated message carries both
reasons); the commit creating a new analysis failed (`Error creating new
analysis: ...`, even though a provider succeeded); or the
`store_analysis_results` update of an existing analysis failed —
missing row or commit error — (`Error storing analysis results: ...`, again
despite a provider success).  `analyze_code_with_llm` raises only when no
configured provider succeeded, and its aggregated message carries every
recorded provider reason. -/
theorem C8_error_conditions :
    (∀ (code : List Char) (o g : Except (List Char) (List Char)) (store : StoreMode)
        (m : List Char),
        analyzeCodeFull code o g store = .error m →
        (∃ oe ge, o = .error oe ∧ g = .error ge
            ∧ m = ("Error analyzing code: ").toList ++ aggProviderMsg oe ge)
          ∨ (∃ e, store = .createNew (.error e)
              ∧ m = ("Error analyzing code: ").toList
                  ++ (("Error creating new analysis: ").toList ++ e))
          ∨ (∃ e, store = .updateExisting (.error e)
              ∧ m = ("Error analyzing code: ").toList
                  ++ (("Error storing analysis results: ").toList ++ e)))
      ∧ (∀ (code oe ge : List Char) (store : StoreMode),
          analyzeCodeRoute code = .providers →
          analyzeCodeFull code (.error oe) (.error ge) store
            = .error (("Error analyzing code: ").toList ++ aggProviderMsg oe ge))
      ∧ (∀ (code r e : List Char) (g : Except (List Char) (List Char)),
          analyzeCodeRoute code = .providers →
          analyzeCodeFull code (.ok r) g (.updateExisting (.error e))
            = .error (("Error analyzing code: ").toList
                ++ (("Error storing analysis results: ").toList ++ e)))
      ∧ (∀ (o g : Option (Except (List Char) JValue)) (m : List Char),
          analyzeCodeWithLlm o g = .error m →
          (∀ r, o ≠ some (.ok r)) ∧ (∀ r, g ≠ some (.ok r)))
      ∧ (∀ oe ge, analyzeCodeWithLlm (some (.error oe)) (some (.error ge))
          = .error (("LLM analysis failed with both services: ").toList
              ++ joinSep (("; ").toList)
                [("OpenAI Error: ").toList ++ oe, ("Gemini Error: ").toList ++ ge])) := by
  refine ⟨?_, ?_, ?_, ?_, ?_⟩
  · intro code o g store m h
    cases hroute : analyzeCodeRoute code with
    | sqlResult mm =>
      simp only [analyzeCodeFull, hroute] at h
      exact absurd h (by simp)
    | providers =>
      simp only [analyzeCodeFull, hroute] at h
      cases o with
      | ok r =>
        cases store with
        | createNew c =>
          cases c with
          | ok u => simp [storeStep] at h
          | error e =>
            refine .inr (.inl ⟨e, rfl, ?_⟩)
            injection h with h'
            exact h'.symm
        | updateExisting st =>
          cases st with
          | ok u => simp [storeStep] at h
          | error e =>
            refine .inr (.inr ⟨e, rfl, ?_⟩)
            injection h with h'
            exact h'.symm
        | noStore => simp [storeStep] at h
      | error oe =>
        cases g with
        | ok r =>
          cases store with
          | createNew c =>
            cases c with
            | ok u => simp [storeStep] at h
            | error e =>
              refine .inr (.inl ⟨e, rfl, ?_⟩)
              injection h with h'
              exact h'.symm
          | updateExisting st =>
            cases st with
            | ok u => simp [storeStep] at h
            | error e =>
              refine .inr (.inr ⟨e, rfl, ?_⟩)
              injection h with h'
              exact h'.symm
          | noStore => simp [storeStep] at h
        | error ge =>
          refine .inl ⟨oe, ge, rfl, rfl, ?_⟩
          injection h with h'
          exact h'.symm
  · intro code oe ge store hroute
    simp only [analyzeCodeFull, hroute]
  · intro code r e g hroute
    simp only [analyzeCodeFull, hroute, storeStep]
  · intro o g m h
    cases o with
    | some x =>
      cases x with
      | ok r => simp [analyzeCodeWithLlm] at h
      | error oe =>
        cases g with
        | some y =>
          cases y with
          | ok r => simp [analyzeCodeWithLlm] at h
          | error ge => exact ⟨fun r hc => by simp at hc, fun r hc => by simp at hc⟩
        | none => exact ⟨fun r hc => by simp at hc, fun r hc => by simp at hc⟩
    | none =>
      cases g with
      | some y =>
        cases y with
        | ok r => simp [analyzeCodeWithLlm] at h
        | error ge => exact ⟨fun r hc => by simp at hc, fun r hc => by simp at hc⟩
      | none => exact ⟨fun r hc => by simp at hc, fun r hc => by simp at hc⟩
  · intro oe ge
    rfl

/-- C8 witness: the error characterisation applied to a run on the update
path whose `store_analysis_results` step fails after an OpenAI success, and
the third-situation disjunct is the one that holds. -/
theorem C8_error_conditions_inst :
    (∃ oe ge, (Except.ok (("x").toList) : Except (List Char) (List Char)) = .error oe
        ∧ (Except.error (("g").toList) : Except (List Char) (List Char)) = .error ge
        ∧ ("Error analyzing code: ").toList
            ++ (("Error storing analysis results: ").toList ++ ("row gone").toList)
          = ("Error analyzing code: ").toList ++ aggProviderMsg oe ge)
      ∨ (∃ e, (StoreMode.updateExisting (.error (("row gone").toList)))
            = .createNew (.error e)
          ∧ ("Error analyzing code: ").toList
              ++ (("Error storing analysis results: ").toList ++ ("row gone").toList)
            = ("Error analyzing code: ").toList
                ++ (("Error creating new analysis: ").toList ++ e))
      ∨ (∃ e, (StoreMode.updateExisting (.error (("row gone").toList)))
            = .updateExisting (.error e)
          ∧ ("Error analyzing code: ").toList
              ++ (("Error storing analysis results: ").toList ++ ("row gone").toList)
            = ("Error analyzing code: ").toList
                ++ (("Error storing analysis results: ").toList ++ e)) :=
  C8_error_conditions.1 (("print(1)").toList) (.ok (("x").toList))
    (.error (("g").toList)) (.updateExisting (.error (("row gone").toList)))
    (("Error analyzing code: ").toList
      ++ (("Error storing analysis results: ").toList ++ ("row gone").toList)) rfl

/-- The token captured by the name pattern always holds a word character:
the `\w+` run in its middle is nonempty. -/
theorem wordQuote_word (pre t tk rs : List Char) (h : wordQuote pre t = some (tk, rs)) :
    ∃ c ∈ tk, isWordChar c = true := by
  unfold wordQuote at h
  rw [List.span_eq_take_drop] at h
  simp only [] at h
  by_cases hw : t.takeWhile isWordChar = []
  · rw [if_pos hw] at h; cases h
  · rw [if_neg hw] at h
    obtain ⟨c, hc⟩ : ∃ c, c ∈ t.takeWhile isWordChar := by
      cases hW : t.takeWhile isWordChar with
      | nil => exact absurd hW hw
      | cons a l => exact ⟨a, List.mem_cons_self a l⟩
    have hcw := List.mem_takeWhile_imp hc
    cases hr : t.dropWhile isWordChar with
    | nil =>
      rw [hr] at h
      injection h with h'
      injection h' with h1 h2
      subst h1
      exact ⟨c, List.mem_append.mpr (.inr hc), hcw⟩
    | cons q r' =>
      rw [hr] at h
      simp only [] at h
      by_cases hq : isTickQuote q
      · rw [if_pos hq] at h
        injection h with h'
        injection h' with h1 h2
        subst h1
        exact ⟨c, List.mem_append.mpr (.inl (List.mem_append.mpr (.inr hc))), hcw⟩
      · rw [if_neg hq] at h
        injection h with h'
        injection h' with h1 h2
        subst h1
        exact ⟨c, List.mem_append.mpr (.inr hc), hcw⟩

theorem matchNameTok_word {s tok rest : List Char}
    (h : matchNameTok s = some (tok, rest)) : ∃ c ∈ tok, isWordChar c = true := by
  unfold matchNameTok at h
  cases s with
  | nil => cases h
  | cons c cs =>
    simp only [] at h
    by_cases hq : isTickQuote c
    · rw [if_pos hq] at h; exact wordQuote_word _ _ _ _ h
    · rw [if_neg hq] at h; exact wordQuote_word _ _ _ _ h

/-- The stripped column name is never empty: quote-stripping cannot consume
the word character inside the captured token. -/
theorem colNameMatch_strip_ne {cd tok r : List Char}
    (h : colNameMatch cd = some (tok, r)) : stripQuotes tok ≠ [] := by
  unfold colNameMatch at h
  cases hm : matchNameTok cd with
  | none => rw [hm] at h; cases h
  | some pr =>
    obtain ⟨tk, r0⟩ := pr
    rw [hm] at h
    simp only [Option.bind_eq_bind, Option.some_bind] at h
    cases hw : ws1 r0 with
    | none => rw [hw] at h; cases h
    | some r1 =>
      rw [hw] at h
      simp only [Option.some_bind] at h
      injection h with h'
      obtain ⟨c, hc, hcw⟩ := matchNameTok_word hm
      have htok : tok = tk := (congrArg Prod.fst h').symm
      rw [htok]
      exact trimBy_ne_nil ⟨c, hc, word_not_tick hcw⟩

/-- The captured data type always holds a word character. -/
theorem typeMatch_word {s ty r2 : List Char}
    (h : typeMatch s = some (ty, r2)) : ∃ c ∈ ty, isWordChar c = true := by
  unfold typeMatch at h
  rw [List.span_eq_take_drop] at h
  simp only [] at h
  by_cases hw : s.takeWhile isWordChar = []
  · rw [if_pos hw] at h; cases h
  · rw [if_neg hw] at h
    obtain ⟨c, hc⟩ : ∃ c, c ∈ s.takeWhile isWordChar := by
      cases hW : s.takeWhile isWordChar with
      | nil => exact absurd hW hw
      | cons a l => exact ⟨a, List.mem_cons_self a l⟩
    have hcw := List.mem_takeWhile_imp hc
    rw [List.span_eq_take_drop] at h
    simp only [] at h
    cases hu : (s.dropWhile isWordChar).dropWhile isPyWs with
    | nil =>
      rw [hu] at h
      injection h with h'
      injection h' with h1 h2
      subst h1
      exact ⟨c, hc, hcw⟩
    | cons c0 v =>
      rw [hu] at h
      simp only [] at h
      by_cases hc0 : c0 = '('
      · rw [if_pos hc0] at h
        cases hsp : splitAtRParen v with
        | some pr =>
          obtain ⟨inner, rest2⟩ := pr
          rw [hsp] at h
          injection h with h'
          injection h' with h1 h2
          subst h1
          exact ⟨c, List.mem_append.mpr (.inl (List.mem_append.mpr (.inl hc))), hcw⟩
        | none =>
          rw [hsp] at h
          injection h with h'
          injection h' with h1 h2
          subst h1
          exact ⟨c, hc, hcw⟩
      · rw [if_neg hc0] at h
        injection h with h'
        injection h' with h1 h2
        subst h1
        exact ⟨c, hc, hcw⟩

theorem typeMatch_strip_ne {s ty r2 : List Char}
    (h : typeMatch s = some (ty, r2)) : pyStrip ty ≠ [] := by
  obtain ⟨c, hc, hcw⟩ := typeMatch_word h
  exact trimBy_ne_nil ⟨c, hc, word_not_ws hcw⟩

/-- A fragment classified as a column always carries a nonempty stripped
name and a nonempty stripped type. -/
theorem classifyFrag_col {tn : Option (List Char)} {cd : List Char} {c : ColumnDesc}
    (h : classifyFrag tn cd = .col c) : c.name ≠ [] ∧ c.type ≠ [] := by
  unfold classifyFrag at h
  by_cases h0 : pyStrip cd = []
  · rw [if_pos h0] at h; cases h
  · rw [if_neg h0] at h
    by_cases hfk : fkHead cd = true
    · rw [if_pos hfk] at h
      cases hfs : fkSearch cd with
      | none => rw [hfs] at h; simp only [] at h; cases h
      | some g =>
        obtain ⟨g1, g2, g3⟩ := g
        rw [hfs] at h
        simp only [] at h
        cases h
    · rw [if_neg hfk] at h
      cases hcn : colNameMatch cd with
      | none => rw [hcn] at h; simp only [] at h; cases h
      | some pr =>
        obtain ⟨tok, rest⟩ := pr
        rw [hcn] at h
        simp only [] at h
        cases htm : typeMatch (pyStrip rest) with
        | none => rw [htm] at h; simp only [] at h; cases h
        | some pr2 =>
          obtain ⟨tyTok, rest2⟩ := pr2
          rw [htm] at h
          simp only [] at h
          injection h with h'
          subst h'
          exact ⟨colNameMatch_strip_ne hcn, typeMatch_strip_ne htm⟩

/-- Every column accumulated by the fragment loop comes from the initial
accumulator or from a fragment the classifier accepted as a column. -/
theorem foldl_classStep_mem (tname : Option (List Char)) :
    ∀ (frags : List (List Char)) (init : List ColumnDesc × List RelationshipDesc)
      (c : ColumnDesc), c ∈ (frags.foldl (classStep tname) init).1 →
      c ∈ init.1 ∨ ∃ cd, classifyFrag tname cd = .col c := by
  intro frags
  induction frags with
  | nil => intro init c h; exact .inl h
  | cons f fs ih =>
    intro init c h
    rw [List.foldl_cons] at h
    rcases ih (classStep tname init f) c h with hin | hex
    · unfold classStep at hin
      cases heq : classifyFrag tname f with
      | col c0 =>
        rw [heq] at hin
        simp only [] at hin
        rcases List.mem_append.mp hin with h1 | h1
        · exact .inl h1
        · have : c = c0 := by simpa using h1
          exact .inr ⟨f, by rw [heq, this]⟩
      | rel r =>
        rw [heq] at hin
        simp only [] at hin
        exact .inl hin
      | skip =>
        rw [heq] at hin
        exact .inl hin
    · exact .inr hex

/-- C9.  Every column descriptor emitted anywhere in the DDL parse has a
nonempty name and a nonempty type: fragments from which both cannot be
extracted are skipped, never emitted with empty fields. -/
theorem C9_columns_nonempty (sql : List Char) (t : TableDesc) (c : ColumnDesc)
    (ht : t ∈ parseSqlTables sql) (hc : c ∈ t.fields) :
    c.name ≠ [] ∧ c.type ≠ [] := by
  rw [parseSqlTables] at ht
  obtain ⟨nb, hnb, hbt⟩ := List.mem_map.mp ht
  subst hbt
  rw [buildTable] at hc
  simp only [] at hc
  rcases foldl_classStep_mem (nb.1.map stripQuotes) (splitColumnDefs nb.2) ([], []) c hc
    with hin | ⟨cd, hcd⟩
  · cases hin
  · exact classifyFrag_col hcd

/-- The `users` table of the concrete scenario and its `email` column. -/
def c9table : TableDesc :=
  ⟨some (("users").toList),
    [⟨("id").toList, ("INTEGER").toList, [], [("PRIMARY KEY").toList]⟩,
     ⟨("email").toList, ("TEXT").toList, [], [("UNIQUE").toList]⟩], []⟩

def c9col : ColumnDesc := ⟨("email").toList, ("TEXT").toList, [], [("UNIQUE").toList]⟩

/-- C9 witness: the invariant applied to the `email TEXT UNIQUE` column of
the concrete scenario. -/
theorem C9_columns_nonempty_inst :
    c9table ∈ parseSqlTables c1input ∧ c9col ∈ c9table.fields
      ∧ (c9col.name ≠ [] ∧ c9col.type ≠ []) :=
  ⟨by decide, by decide,
   C9_columns_nonempty c1input c9table c9col (by decide) (by decide)⟩
